import Mathlib

/-!
# Verification of the vCloud Director Ansible inventory script and vApp network module

A shallow embedding, in Lean 4, of the two Python source files of the
repository:

* `plugins/inventory/inventory.py` — the CLI inventory script
  (`VcdInventory`): credential loading, cache path/validity, the
  cache-refresh walk (`call_update_cache`), API authentication,
  host lookup (`host_information`) and JSON cache serialization.
* `plugins/modules/vcd_vapp_network.py` — the `VappNetwork` module:
  `get_network`, `add_network`, `delete_network`, `manage_states`.

Python dictionaries are embedded as association lists with
replace-or-append assignment (insertion-order semantics), XML element
trees as a custom tree type with ElementTree's `iter` / `findall` /
`get` / `.text` operations, HTTP and the remote API as an explicit
environment (`Env`) mapping URLs and headers to optional responses
(`none` = network/parse failure), and `json.dumps`/`json.loads`
(pretty, key-sorted) as an executable printer/parser pair over a JSON
value type. Unhandled Python exceptions are embedded as `Option`/flag
failures that propagate to the caller.
-/

/-! ## Association lists (Python `dict` embedding)

A Python `dict` preserves insertion order; assignment to an existing
key replaces its value in place, assignment to a fresh key appends.
Lookup of a missing key is `none` (a raised `KeyError` at use sites is
modelled by the caller propagating `none`). -/

section AList

variable {κ : Type} {ν : Type} [DecidableEq κ]

/-- `d[k]` as a total lookup: first binding of `k` wins. -/
def alookup (k : κ) : List (κ × ν) → Option ν
  | [] => none
  | (k', v) :: t => if k = k' then some v else alookup k t

/-- `d[k] = v`: replace in place when present, append when absent. -/
def aset (k : κ) (v : ν) : List (κ × ν) → List (κ × ν)
  | [] => [(k, v)]
  | (k', v') :: t => if k = k' then (k', v) :: t else (k', v') :: aset k v t

/-- `k in d.keys()`. -/
def amem (k : κ) (d : List (κ × ν)) : Bool := (alookup k d).isSome

/-- `d.update(e)`: assign every binding of `e` into `d`, in order. -/
def aupdate (d e : List (κ × ν)) : List (κ × ν) :=
  e.foldl (fun acc kv => aset kv.1 kv.2 acc) d

theorem alookup_aset_self (k : κ) (v : ν) (d : List (κ × ν)) :
    alookup k (aset k v d) = some v := by
  induction d with
  | nil => simp [aset, alookup]
  | cons hd t ih =>
      obtain ⟨k', v'⟩ := hd
      by_cases h : k = k'
      · simp [aset, alookup, h]
      · simp [aset, alookup, h, ih]

theorem alookup_aset_ne (k k' : κ) (v : ν) (d : List (κ × ν)) (h : k' ≠ k) :
    alookup k' (aset k v d) = alookup k' d := by
  induction d with
  | nil => simp [aset, alookup, h]
  | cons hd t ih =>
      obtain ⟨k0, v0⟩ := hd
      by_cases h0 : k = k0
      · subst h0
        simp [aset, alookup, h]
      · by_cases h1 : k' = k0
        · simp [aset, alookup, h0, h1]
        · simp [aset, alookup, h0, h1, ih]

end AList

/-! ## XML element trees (`xml.etree.cElementTree` embedding)

`Xml.elem tag attrs txt children`: an element with its tag, attribute
list, `.text` (which Python may report as `None`), and child elements.
`XmlList` is a bespoke child-list type so that mutual structural
recursion and induction stay simple. -/

mutual

inductive Xml : Type where
  | elem (tag : String) (attrs : List (String × String))
         (txt : Option String) (children : XmlList)
  deriving DecidableEq

inductive XmlList : Type where
  | nil : XmlList
  | cons (hd : Xml) (tl : XmlList) : XmlList
  deriving DecidableEq

end

namespace Xml

def tag : Xml → String
  | .elem t _ _ _ => t

/-- ElementTree's `elem.get(attr)`. -/
def get (attr : String) : Xml → Option String
  | .elem _ attrs _ _ => alookup attr attrs

/-- ElementTree's `elem.text`. -/
def text : Xml → Option String
  | .elem _ _ t _ => t

def childrenOf : Xml → XmlList
  | .elem _ _ _ c => c

end Xml

def XmlList.toList : XmlList → List Xml
  | .nil => []
  | .cons h t => h :: t.toList

mutual

/-- All elements of the subtree in document order (root first), as
produced by ElementTree's `elem.iter()` without a tag filter. -/
def Xml.iterAll : Xml → List Xml
  | .elem t a x c => .elem t a x c :: c.iterAllL

def XmlList.iterAllL : XmlList → List Xml
  | .nil => []
  | .cons h t => h.iterAll ++ t.iterAllL

end

/-- ElementTree's `elem.iter(tag)`: subtree elements (root included)
with the given tag, in document order. -/
def Xml.iterTag (t : String) (x : Xml) : List Xml :=
  x.iterAll.filter (fun e => e.tag = t)

/-- ElementTree's `elem.findall(tag)`: direct children with the tag. -/
def Xml.findallTag (t : String) (x : Xml) : List Xml :=
  x.childrenOf.toList.filter (fun e => e.tag = t)

/-- ElementTree's `elem.find(tag)`: first direct child with the tag,
`none` when there is no such child. -/
def Xml.findTag (t : String) (x : Xml) : Option Xml :=
  x.childrenOf.toList.find? (fun e => e.tag = t)

/-! ## The inventory script's data model

`self.inventory` is a Python dict whose keys are `'server'`, `'_meta'`
and dynamically created group names (vApp names and metadata tags, which
may be `None` when an XML attribute is missing — Python permits `None`
dict keys, hence keys are `Option String`).  Its values are the
one-or-two-key dicts the script builds: `{'hosts': [...]}` (optionally
with `'children'`) or `{'hostvars': {...}}`. -/

abbrev Headers := List (String × String)

abbrev HostVars := List (String × Option String)

inductive IValue : Type where
  | group (hosts : List (Option String)) (children : Option (List (Option String)))
  | meta (hostvars : List (Option String × HostVars))
  deriving DecidableEq

abbrev Inventory := List (Option String × IValue)

/-- `VcdInventory._empty_inventory`. -/
def empty_inventory : Inventory :=
  [(some "server", .group [] (some [])), (some "_meta", .meta [])]

/-- Module-level `GLOBALS` constant. -/
def GLOBALS : HostVars :=
  [("ansible_become", some "true"),
   ("ansible_python_interpreter", some "/usr/bin/python3"),
   ("ansible_ssh_common_args",
    some "-o StrictHostKeyChecking=no -o ProxyCommand=\"ssh -o StrictHostKeyChecking=no -o UserKnownHostsFile=/dev/null -W %h:%p $ANSIBLE_REMOTE_USER@public-jumphost-ip\"")]

/-- Module-level `OVERRIDE` constant. -/
def OVERRIDE : List (String × HostVars) :=
  [("jumphost",
    [("ansible_host", some "public-jumphost-ip"),
     ("ansible_ssh_common_args", some "-o StrictHostKeyChecking=no")]),
   ("server-01", [("ansible_host", some "10.10.0.21")]),
   ("server-02", [("ansible_host", some "10.10.0.22")])]

/-- The vCloud 1.5 XML namespace prefix used by every tag lookup. -/
def vcloudNs : String := "\x7bhttp://www.vmware.com/vcloud/v1.5\x7d"

def ipAddressTag : String := vcloudNs ++ "IpAddress"

def vmTag : String := vcloudNs ++ "Vm"

def vappRecordTag : String := vcloudNs ++ "VAppRecord"

def metadataEntryTag : String := vcloudNs ++ "MetadataEntry"

def keyTag : String := vcloudNs ++ "Key"

def valueTag : String := vcloudNs ++ "Value"

/-- `search_within_attrs`: first element of `root.iter(tag)` wins; its
`.text` (when `text` is truthy) or `.get(attr)` is returned; an empty
iteration falls off the loop and returns Python `None`. -/
def search_within_attrs (root : Xml) (tag : String) (txt : Bool) (attr : String) :
    Option String :=
  match root.iterTag tag with
  | [] => none
  | e :: _ => if txt then e.text else e.get attr

/-- `merge_available_attrs`: `{'ansible_host': <first IpAddress text>}`,
then `.update(GLOBALS)`, then `.update(OVERRIDE[name])` when the host
name is an `OVERRIDE` key. -/
def merge_available_attrs (host : Xml) : HostVars :=
  match host.get "name" with
  | some n =>
      match alookup n OVERRIDE with
      | some ov =>
          aupdate (aupdate [("ansible_host",
            search_within_attrs host ipAddressTag true "")] GLOBALS) ov
      | none =>
          aupdate [("ansible_host",
            search_within_attrs host ipAddressTag true "")] GLOBALS
  | none =>
      aupdate [("ansible_host",
        search_within_attrs host ipAddressTag true "")] GLOBALS

/-! ## The remote API as an environment

`Env.fetch url headers` is the composite of `requests.get` and
`ET.fromstring` inside `extract_from_tree`: `none` covers a raised
network error or XML parse error.  `Env.authToken` is the value of the
`x-vcloud-authorization` response header of the `POST /sessions` call in
`authenticate_to_api`; `none` covers a failed request or a missing
header (`KeyError`). -/

structure Env where
  authToken : Option String
  fetch : String → Headers → Option Xml

/-- A GET issued through `extract_from_tree`: the URL and the header
dict it carried. -/
abbrev Request := String × Headers

/-- `authenticate_to_api`: on success the token is stored into the
shared header dict (`self.credentials['headers']`); on failure the
exception propagates and the headers are unchanged. -/
def authenticate_to_api (env : Env) (headers : Headers) : Option Headers :=
  env.authToken.map (fun t => aset "x-vcloud-authorization" t headers)

/-- The group-tag scan of `gather_meta_from` over one `MetadataEntry`:
`val.find(Key).text` raises (`none`) when there is no `Key` child; a
`Value` with `None` text raises on `.split`. -/
def collectValues : List Xml → Option (List String)
  | [] => some []
  | v :: t =>
      match v.text with
      | none => none
      | some s => (collectValues t).map (fun rest => s.splitOn "," ++ rest)

def metaEntryGroups (val : Xml) : Option (List String) :=
  match val.findTag keyTag with
  | none => none
  | some kelem =>
      if kelem.text = some "ansible_groups" then collectValues (val.iterTag valueTag)
      else some []

def metaGroups : List Xml → Option (List String)
  | [] => some []
  | e :: t =>
      match metaEntryGroups e with
      | none => none
      | some gs => (metaGroups t).map (fun rest => gs ++ rest)

/-! ## The refresh walk (`call_update_cache`)

State-passing embedding of the nested loops.  A `false` flag is a
propagating Python exception; the partially mutated in-memory inventory
at the point of failure is kept (as Python's `self.inventory` is), and
the request log records every GET issued through `extract_from_tree`. -/

/-- `self.inventory['server']['children'].append(vapp_name)`; `none` is
a `KeyError` (no `'server'` key, or its value has no `'children'`). -/
def appendServerChild (name : Option String) (inv : Inventory) : Option Inventory :=
  match alookup (some "server") inv with
  | some (.group hosts (some ch)) =>
      some (aset (some "server") (.group hosts (some (ch ++ [name]))) inv)
  | _ => none

/-- `self.inventory[k]['hosts'].append(n)`; `none` is a `KeyError`. -/
def appendGroupHost (k : Option String) (n : Option String) (inv : Inventory) : Option Inventory :=
  match alookup k inv with
  | some (.group hosts ch) => some (aset k (.group (hosts ++ [n]) ch) inv)
  | _ => none

/-- `self.inventory['_meta']['hostvars'][k] = hv`; `none` is a `KeyError`. -/
def setHostvar (k : Option String) (hv : HostVars) (inv : Inventory) : Option Inventory :=
  match alookup (some "_meta") inv with
  | some (.meta m) => some (aset (some "_meta") (.meta (aset k hv m)) inv)
  | _ => none

/-- `if not k in self.inventory.keys(): self.inventory[k] = {'hosts': []}`. -/
def ensureGroup (k : Option String) (inv : Inventory) : Inventory :=
  if amem k inv then inv else aset k (.group [] none) inv

/-- The `for metadata in self.gather_meta_from(...)` loop body over the
already-fetched group tags. -/
def processMeta (hostName : Option String) : List String → Inventory → Bool × Inventory
  | [], inv => (true, inv)
  | g :: t, inv =>
      match appendGroupHost (some g) hostName (ensureGroup (some g) inv) with
      | none => (false, ensureGroup (some g) inv)
      | some inv2 => processMeta hostName t inv2

/-- One iteration of the `for host in self.gather_hosts_from(...)` loop. -/
def processHost (env : Env) (hdrs : Headers) (vappName : Option String)
    (h : Xml) (inv : Inventory) : (Bool × Inventory) × List Request :=
  match h.get "href" with
  | none => ((false, inv), [])
  | some href =>
      match env.fetch (href ++ "/metadata") hdrs with
      | none => ((false, inv), [(href ++ "/metadata", hdrs)])
      | some doc =>
          match metaGroups (doc.iterTag metadataEntryTag) with
          | none => ((false, inv), [(href ++ "/metadata", hdrs)])
          | some groups =>
              match processMeta (h.get "name") groups inv with
              | (false, inv1) => ((false, inv1), [(href ++ "/metadata", hdrs)])
              | (true, inv1) =>
                  match appendGroupHost (some "server") (h.get "name") inv1 with
                  | none => ((false, inv1), [(href ++ "/metadata", hdrs)])
                  | some inv2 =>
                      match appendGroupHost vappName (h.get "name") inv2 with
                      | none => ((false, inv2), [(href ++ "/metadata", hdrs)])
                      | some inv3 =>
                          match setHostvar (h.get "name") (merge_available_attrs h) inv3 with
                          | none => ((false, inv3), [(href ++ "/metadata", hdrs)])
                          | some inv4 => ((true, inv4), [(href ++ "/metadata", hdrs)])

def processHosts (env : Env) (hdrs : Headers) (vappName : Option String) :
    List Xml → Inventory → (Bool × Inventory) × List Request
  | [], inv => ((true, inv), [])
  | h :: t, inv =>
      match processHost env hdrs vappName h inv with
      | ((false, inv1), log) => ((false, inv1), log)
      | ((true, inv1), log) =>
          match processHosts env hdrs vappName t inv1 with
          | ((ok, inv2), log2) => ((ok, inv2), log ++ log2)

/-- One iteration of the `for vapp in self.gather_vapp_list()` loop:
append the vApp name to `server.children`, create its group if the key
is new, then fetch its `Vm` elements and process each host.  A `none`
from `appendServerChild` is a `KeyError` raised before any mutation; a
`none` href crashes inside `requests.get` after the group was ensured. -/
def processVapp (env : Env) (hdrs : Headers) (v : Xml) (inv : Inventory) :
    (Bool × Inventory) × List Request :=
  match appendServerChild (v.get "name") inv, v.get "href" with
  | none, _ => ((false, inv), [])
  | some inv1, none => ((false, ensureGroup (v.get "name") inv1), [])
  | some inv1, some href =>
      match env.fetch href hdrs with
      | none => ((false, ensureGroup (v.get "name") inv1), [(href, hdrs)])
      | some doc =>
          match processHosts env hdrs (v.get "name") (doc.iterTag vmTag)
              (ensureGroup (v.get "name") inv1) with
          | ((ok, inv3), log) => ((ok, inv3), (href, hdrs) :: log)

def processVapps (env : Env) (hdrs : Headers) :
    List Xml → Inventory → (Bool × Inventory) × List Request
  | [], inv => ((true, inv), [])
  | v :: t, inv =>
      match processVapp env hdrs v inv with
      | ((false, inv1), log) => ((false, inv1), log)
      | ((true, inv1), log) =>
          match processVapps env hdrs t inv1 with
          | ((ok, inv2), log2) => ((ok, inv2), log ++ log2)

/-- The mutable state of one `VcdInventory` run that `call_update_cache`
touches: the credentials' base URL and shared header dict, the
in-memory inventory, and the cache file (`none` = absent), holding the
snapshot whose serialization `write_to_cache` defines. -/
structure CState where
  base_url : String
  headers : Headers
  inv : Inventory
  cache : Option Inventory

structure RunResult where
  ok : Bool
  state : CState
  log : List Request

/-- `call_update_cache`: authenticate, walk every vApp, then — only
after the whole walk has succeeded — overwrite the cache file with the
assembled inventory. -/
def call_update_cache (env : Env) (st : CState) : RunResult :=
  match authenticate_to_api env st.headers with
  | none => ⟨false, st, []⟩
  | some hdrs =>
      match env.fetch (st.base_url ++ "/vApps/query") hdrs with
      | none => ⟨false, { st with headers := hdrs },
                 [(st.base_url ++ "/vApps/query", hdrs)]⟩
      | some doc =>
          match processVapps env hdrs (doc.findallTag vappRecordTag) st.inv with
          | ((true, inv1), log) =>
              ⟨true, { st with headers := hdrs, inv := inv1, cache := some inv1 },
               (st.base_url ++ "/vApps/query", hdrs) :: log⟩
          | ((false, inv1), log) =>
              ⟨false, { st with headers := hdrs, inv := inv1 },
               (st.base_url ++ "/vApps/query", hdrs) :: log⟩

/-! ## Cache path, cache validity, credentials -/

/-- `posixpath.isabs`: the path begins with `'/'`. -/
def isAbsolute (p : String) : Bool :=
  match p.data with
  | [] => false
  | c :: _ => c = '/'

/-- POSIX `os.path.join(dir, p)` for this program's arguments: an
absolute second component discards the first; otherwise they are
joined with `'/'` (the directory here always ends in `"cache"`, never
in `'/'` and never empty, so the no-extra-slash case of the real
`join` cannot arise). -/
def os_path_join (dir p : String) : String :=
  if isAbsolute p then p else dir ++ "/" ++ p

/-- The path `configure_cache` stores in `self.cache_path_file`:
`os.path.join(expanduser('~/.vcd/cache'), '%s.cache' % (org + '-' + username))`. -/
def cache_path_file (home org username : String) : String :=
  os_path_join (home ++ "/.vcd/cache") ((org ++ "-" ++ username) ++ ".cache")

/-- `self.cache_max_age = 900` (set in `configure_cache`). -/
def cache_max_age : Int := 900

/-- `is_cache_valid`: the cache file is given as `none` (absent) or
`some mtime`; the code returns `(mod_time + self.cache_max_age) >
current_time` when the file exists and `False` otherwise. -/
def is_cache_valid (mtime : Option Int) (now : Int) : Bool :=
  match mtime with
  | some m => decide (m + cache_max_age > now)
  | none => false

/-- Python's `str.strip()` whitespace set (ASCII part). -/
def pyWhitespace (c : Char) : Bool :=
  c = ' ' || c = '\t' || c = '\n' || c = '\r' || c = '\x0b' || c = '\x0c'

/-- `not value.strip()`: the string is empty or all whitespace. -/
def blank (s : String) : Bool := s.data.all pyWhitespace

structure Credentials where
  base_url : String
  username : String
  password : String
  org : String
  deriving DecidableEq

/-- `read_credentials`: each of the four variables, in source order, is
read with `os.environ.get(var, '')` and gated; a blank value prints the
diagnostic and calls `exit(1)` — embedded as `.error (message, 1)`. -/
def read_credentials (env : String → Option String) :
    Except (String × Nat) Credentials :=
  let base_url := (env "VCD_URL").getD ""
  if blank base_url then .error ("Missing VCD_URL environment variable!", 1)
  else
    let username := (env "VCD_USER").getD ""
    if blank username then .error ("Missing VCD_USER environment variable!", 1)
    else
      let password := (env "VCD_PASSWORD").getD ""
      if blank password then .error ("Missing VCD_PASSWORD environment variable!", 1)
      else
        let org := (env "VCD_ORG").getD ""
        if blank org then .error ("Missing VCD_ORG environment variable!", 1)
        else .ok ⟨base_url, username, password, org⟩

/-! ## Theorems: cache validity (C3), credentials (C7), cache path (C2) -/

/-- **C3.** `is_cache_valid` is true iff the cache file exists and its
modification time plus the fixed max age 900 is strictly greater than
the current time; a file of age exactly 900 is expired, and a
nonexistent file always yields false. -/
theorem is_cache_valid_spec :
    ∀ (mtime : Option Int) (now : Int),
      (is_cache_valid mtime now = true ↔ ∃ m, mtime = some m ∧ m + 900 > now)
      ∧ is_cache_valid none now = false
      ∧ ∀ m : Int, is_cache_valid (some m) (m + 900) = false := by
  intro mtime now
  refine ⟨⟨?_, ?_⟩, rfl, ?_⟩
  · intro h
    cases mtime with
    | none => simp [is_cache_valid] at h
    | some m =>
        refine ⟨m, rfl, ?_⟩
        simpa [is_cache_valid, cache_max_age] using h
  · rintro ⟨m, rfl, hm⟩
    simpa [is_cache_valid, cache_max_age] using hm
  · intro m
    simp [is_cache_valid, cache_max_age]

/-- **C7.** Each of `VCD_URL`, `VCD_USER`, `VCD_PASSWORD`, `VCD_ORG` is
checked in that order; a value that is absent or whitespace-only stops
the run with the diagnostic naming that variable and exit status 1, and
a successful load returns all four values non-blank. -/
theorem read_credentials_spec :
    ∀ env : String → Option String,
      (blank ((env "VCD_URL").getD "") = true →
        read_credentials env = .error ("Missing VCD_URL environment variable!", 1))
      ∧ (blank ((env "VCD_URL").getD "") = false →
         blank ((env "VCD_USER").getD "") = true →
        read_credentials env = .error ("Missing VCD_USER environment variable!", 1))
      ∧ (blank ((env "VCD_URL").getD "") = false →
         blank ((env "VCD_USER").getD "") = false →
         blank ((env "VCD_PASSWORD").getD "") = true →
        read_credentials env = .error ("Missing VCD_PASSWORD environment variable!", 1))
      ∧ (blank ((env "VCD_URL").getD "") = false →
         blank ((env "VCD_USER").getD "") = false →
         blank ((env "VCD_PASSWORD").getD "") = false →
         blank ((env "VCD_ORG").getD "") = true →
        read_credentials env = .error ("Missing VCD_ORG environment variable!", 1))
      ∧ (∀ c, read_credentials env = .ok c →
          blank c.base_url = false ∧ blank c.username = false ∧
          blank c.password = false ∧ blank c.org = false ∧
          c = ⟨(env "VCD_URL").getD "", (env "VCD_USER").getD "",
               (env "VCD_PASSWORD").getD "", (env "VCD_ORG").getD ""⟩) := by
  intro env
  refine ⟨?_, ?_, ?_, ?_, ?_⟩
  · intro h1
    simp [read_credentials, h1]
  · intro h1 h2
    simp [read_credentials, h1, h2]
  · intro h1 h2 h3
    simp [read_credentials, h1, h2, h3]
  · intro h1 h2 h3 h4
    simp [read_credentials, h1, h2, h3, h4]
  · intro c hc
    by_cases h1 : blank ((env "VCD_URL").getD "") <;>
      by_cases h2 : blank ((env "VCD_USER").getD "") <;>
        by_cases h3 : blank ((env "VCD_PASSWORD").getD "") <;>
          by_cases h4 : blank ((env "VCD_ORG").getD "") <;>
            simp [read_credentials, h1, h2, h3, h4] at hc <;>
              simp [← hc, h1, h2, h3, h4]

/-- Witness for `read_credentials_spec`: an environment with no
variables set fails on `VCD_URL` first. -/
theorem read_credentials_spec_witness :
    blank (((fun _ => none : String → Option String) "VCD_URL").getD "") = true ∧
    read_credentials (fun _ => none) =
      .error ("Missing VCD_URL environment variable!", 1) :=
  ⟨by decide, (read_credentials_spec (fun _ => none)).1 (by decide)⟩

/-- Splitting a list at a separator absent from both prefixes is
unambiguous. -/
theorem append_sep_inj {α : Type} (c : α) :
    ∀ (a b x y : List α), c ∉ a → c ∉ b → a ++ c :: x = b ++ c :: y →
      a = b ∧ x = y := by
  intro a
  induction a with
  | nil =>
      intro b x y _ hb h
      cases b with
      | nil =>
          simp only [List.nil_append, List.cons.injEq] at h
          exact ⟨rfl, h.2⟩
      | cons b0 bs =>
          simp only [List.nil_append, List.cons_append, List.cons.injEq] at h
          exact absurd (h.1 ▸ List.mem_cons_self b0 bs) hb
  | cons a0 as ih =>
      intro b x y ha hb h
      cases b with
      | nil =>
          simp only [List.cons_append, List.nil_append, List.cons.injEq] at h
          exact absurd (h.1 ▸ List.mem_cons_self a0 as) ha
      | cons b0 bs =>
          simp only [List.cons_append, List.cons.injEq] at h
          obtain ⟨h0, h1⟩ := h
          have ha' : c ∉ as := fun hc => ha (List.mem_cons_of_mem a0 hc)
          have hb' : c ∉ bs := fun hc => hb (List.mem_cons_of_mem b0 hc)
          obtain ⟨hab, hxy⟩ := ih bs x y ha' hb' h1
          exact ⟨by rw [h0, hab], hxy⟩

/-- **C2 (counterexample).** The cache path is not injective on all
`(org, username)` pairs, in two ways: the `'-'` separator may occur
inside org or username (`("a", "b-c")` vs `("a-b", "c")`), and an org
beginning with `'/'` makes the `'%s.cache'` filename absolute, so
`os.path.join` discards the cache directory
(`("/h/.vcd/cache/a", "b")` vs `("a", "b")` under home `"/h"`). -/
theorem cache_path_file_collision :
    (cache_path_file "/h" "a" "b-c" = cache_path_file "/h" "a-b" "c"
      ∧ (("a", "b-c") : String × String) ≠ ("a-b", "c"))
    ∧ (cache_path_file "/h" "/h/.vcd/cache/a" "b" = cache_path_file "/h" "a" "b"
      ∧ (("/h/.vcd/cache/a", "b") : String × String) ≠ ("a", "b")) := by
  exact ⟨⟨by decide, by decide⟩, ⟨by decide, by decide⟩⟩

/-- The `'%s.cache'` filename is absolute exactly when the org is: its
first character is the org's first character, or `'-'` when the org is
empty. -/
theorem isAbsolute_fname (o u : String) :
    isAbsolute ((o ++ "-" ++ u) ++ ".cache") = isAbsolute o := by
  have hdash : ("-" : String).data = ['-'] := by decide
  have hdata : ((o ++ "-" ++ u) ++ ".cache").data
      = o.data ++ ('-' :: (u.data ++ ".cache".data)) := by
    simp [hdash]
  unfold isAbsolute
  rw [hdata]
  cases hd : o.data with
  | nil => simp
  | cons c t => simp

/-- **C2 (amended).** The cache file path is a pure function of
`(org, username)` (for a fixed home directory), and it is injective on
pairs whose org contains no `'-'` character and does not begin with
`'/'`; unrestricted injectivity fails both ways (see
`cache_path_file_collision`). -/
theorem cache_path_file_pure_injective :
    ∀ home o1 u1 o2 u2 : String,
      (((o1, u1) : String × String) = (o2, u2) →
        cache_path_file home o1 u1 = cache_path_file home o2 u2)
      ∧ ('-' ∉ o1.data → '-' ∉ o2.data →
         isAbsolute o1 = false → isAbsolute o2 = false →
         cache_path_file home o1 u1 = cache_path_file home o2 u2 →
         o1 = o2 ∧ u1 = u2) := by
  intro home o1 u1 o2 u2
  constructor
  · intro h
    obtain ⟨h1, h2⟩ := Prod.mk.injEq .. ▸ h
    rw [h1, h2]
  · intro ho1 ho2 ha1 ha2 hpath
    have hj1 : cache_path_file home o1 u1
        = (home ++ "/.vcd/cache") ++ "/" ++ ((o1 ++ "-" ++ u1) ++ ".cache") := by
      unfold cache_path_file os_path_join
      rw [if_neg (by rw [isAbsolute_fname, ha1]; simp)]
    have hj2 : cache_path_file home o2 u2
        = (home ++ "/.vcd/cache") ++ "/" ++ ((o2 ++ "-" ++ u2) ++ ".cache") := by
      unfold cache_path_file os_path_join
      rw [if_neg (by rw [isAbsolute_fname, ha2]; simp)]
    rw [hj1, hj2] at hpath
    have hdata := congrArg String.data hpath
    simp only [String.data_append, List.append_assoc] at hdata
    have hdata' := List.append_cancel_left hdata
    have hdata'' := List.append_cancel_left hdata'
    have hsep : o1.data ++ '-' :: (u1.data ++ ".cache".data)
        = o2.data ++ '-' :: (u2.data ++ ".cache".data) := by
      have hdash : ("-" : String).data = ['-'] := by decide
      simpa [hdash] using hdata''
    obtain ⟨ho, hu⟩ := append_sep_inj '-' o1.data o2.data _ _ ho1 ho2 hsep
    exact ⟨String.ext ho, String.ext (List.append_cancel_right hu)⟩

/-- Witness for `cache_path_file_pure_injective` at
`home = "/h"`, orgs `"x"`, users `"y"`. -/
theorem cache_path_file_pure_injective_witness :
    '-' ∉ ("x" : String).data ∧ isAbsolute "x" = false
    ∧ (("x" : String) = "x" ∧ ("y" : String) = "y") :=
  ⟨by decide, by decide,
   (cache_path_file_pure_injective "/h" "x" "y" "x" "y").2
     (by decide) (by decide) (by decide) (by decide) rfl⟩

/-! ## Theorems: refresh failure leaves the cache untouched (C4),
session token on every request (C6) -/

/-- **C4.** If any step of a refresh fails before the walk completes,
the cache file is left exactly as it was; the write happens only after
the entire walk has succeeded, and then writes the full assembled
inventory. -/
theorem call_update_cache_write_policy :
    ∀ (env : Env) (st : CState),
      ((call_update_cache env st).ok = false →
        (call_update_cache env st).state.cache = st.cache)
      ∧ ((call_update_cache env st).ok = true →
        (call_update_cache env st).state.cache =
          some (call_update_cache env st).state.inv) := by
  intro env st
  unfold call_update_cache
  split
  · simp
  · split
    · simp
    · split <;> simp

/-- Witness for `call_update_cache_write_policy`: a run whose
authentication fails leaves an absent cache absent. -/
theorem call_update_cache_write_policy_witness :
    (call_update_cache ⟨none, fun _ _ => none⟩
        ⟨"http://u", [], empty_inventory, none⟩).ok = false ∧
    (call_update_cache ⟨none, fun _ _ => none⟩
        ⟨"http://u", [], empty_inventory, none⟩).state.cache = none :=
  ⟨rfl, (call_update_cache_write_policy ⟨none, fun _ _ => none⟩
      ⟨"http://u", [], empty_inventory, none⟩).1 rfl⟩

theorem processHost_log_headers :
    ∀ (env : Env) (hdrs : Headers) (vn : Option String) (h : Xml)
      (inv : Inventory) (r : Request),
      r ∈ (processHost env hdrs vn h inv).2 → r.2 = hdrs := by
  intro env hdrs vn h inv r hr
  unfold processHost at hr
  repeat' split at hr
  all_goals simp_all

theorem processHosts_log_headers :
    ∀ (env : Env) (hdrs : Headers) (vn : Option String) (hs : List Xml)
      (inv : Inventory) (r : Request),
      r ∈ (processHosts env hdrs vn hs inv).2 → r.2 = hdrs := by
  intro env hdrs vn hs
  induction hs with
  | nil => intro inv r hr; simp [processHosts] at hr
  | cons h t ih =>
      intro inv r hr
      unfold processHosts at hr
      split at hr
      · rename_i inv1 log heq
        exact processHost_log_headers env hdrs vn h inv r (by rw [heq]; exact hr)
      · rename_i inv1 log heq
        split at hr
        rename_i ok2 inv2 log2 heq2
        simp only [List.mem_append] at hr
        rcases hr with hr | hr
        · exact processHost_log_headers env hdrs vn h inv r (by rw [heq]; exact hr)
        · exact ih inv1 r (by rw [heq2]; exact hr)

theorem processVapp_log_headers :
    ∀ (env : Env) (hdrs : Headers) (v : Xml) (inv : Inventory) (r : Request),
      r ∈ (processVapp env hdrs v inv).2 → r.2 = hdrs := by
  intro env hdrs v inv r hr
  unfold processVapp at hr
  split at hr
  · simp at hr
  · simp at hr
  · rename_i inv1 href heq1 heq2
    split at hr
    · simp at hr
      rw [hr]
    · rename_i doc heq3
      split at hr
      rename_i ok inv3 log heq4
      simp at hr
      rcases hr with hr | hr
      · rw [hr]
      · exact processHosts_log_headers env hdrs (v.get "name") (doc.iterTag vmTag)
          (ensureGroup (v.get "name") inv1) r (by rw [heq4]; exact hr)

theorem processVapps_log_headers :
    ∀ (env : Env) (hdrs : Headers) (vs : List Xml) (inv : Inventory) (r : Request),
      r ∈ (processVapps env hdrs vs inv).2 → r.2 = hdrs := by
  intro env hdrs vs
  induction vs with
  | nil => intro inv r hr; simp [processVapps] at hr
  | cons v t ih =>
      intro inv r hr
      unfold processVapps at hr
      split at hr
      · rename_i inv1 log heq
        exact processVapp_log_headers env hdrs v inv r (by rw [heq]; exact hr)
      · rename_i inv1 log heq
        split at hr
        rename_i ok2 inv2 log2 heq2
        simp only [List.mem_append] at hr
        rcases hr with hr | hr
        · exact processVapp_log_headers env hdrs v inv r (by rw [heq]; exact hr)
        · exact ih inv1 r (by rw [heq2]; exact hr)

/-- **C6.** When authentication succeeds, the token from the
`x-vcloud-authorization` response header is stored in the shared header
dict, and every request subsequently issued through
`extract_from_tree` during the refresh carries it. -/
theorem authenticate_token_on_every_request :
    ∀ (env : Env) (st : CState) (tok : String),
      env.authToken = some tok →
      alookup "x-vcloud-authorization"
        (call_update_cache env st).state.headers = some tok
      ∧ ∀ r ∈ (call_update_cache env st).log,
          alookup "x-vcloud-authorization" r.2 = some tok := by
  intro env st tok htok
  have hauth : authenticate_to_api env st.headers =
      some (aset "x-vcloud-authorization" tok st.headers) := by
    simp [authenticate_to_api, htok]
  unfold call_update_cache
  split
  · rename_i heq
    rw [hauth] at heq
    cases heq
  · rename_i hdrs heq
    rw [hauth] at heq
    injection heq with heq'
    subst heq'
    split
    · refine ⟨alookup_aset_self _ _ _, ?_⟩
      intro r hr
      simp at hr
      rw [hr]
      exact alookup_aset_self _ _ _
    · rename_i doc heq2
      split
      · rename_i inv1 log heq3
        refine ⟨alookup_aset_self _ _ _, ?_⟩
        intro r hr
        simp at hr
        rcases hr with hr | hr
        · rw [hr]
          exact alookup_aset_self _ _ _
        · rw [processVapps_log_headers env _ _ st.inv r (by rw [heq3]; exact hr)]
          exact alookup_aset_self _ _ _
      · rename_i inv1 log heq3
        refine ⟨alookup_aset_self _ _ _, ?_⟩
        intro r hr
        simp at hr
        rcases hr with hr | hr
        · rw [hr]
          exact alookup_aset_self _ _ _
        · rw [processVapps_log_headers env _ _ st.inv r (by rw [heq3]; exact hr)]
          exact alookup_aset_self _ _ _

/-- Witness for `authenticate_token_on_every_request`: a concrete run
whose session yields token `"tok"`. -/
theorem authenticate_token_on_every_request_witness :
    alookup "x-vcloud-authorization"
      (call_update_cache ⟨some "tok", fun _ _ => none⟩
        ⟨"http://u", [], empty_inventory, none⟩).state.headers = some "tok"
    ∧ ∀ r ∈ (call_update_cache ⟨some "tok", fun _ _ => none⟩
        ⟨"http://u", [], empty_inventory, none⟩).log,
        alookup "x-vcloud-authorization" r.2 = some "tok" :=
  authenticate_token_on_every_request ⟨some "tok", fun _ _ => none⟩
    ⟨"http://u", [], empty_inventory, none⟩ "tok" rfl

/-! ## Theorems: host inclusion in the snapshot (C1)

The claim is that a host with no namespaced `IpAddress` element appears
nowhere in the snapshot.  The walk in fact appends every discovered
host to `server.hosts`, to its vApp group and to `_meta.hostvars`
unconditionally; the missing address only makes the stored
`ansible_host` value `None`. -/

/-- The name `n` is in the `'hosts'` list of group key `k`. -/
def inGroupHosts (k n : Option String) (inv : Inventory) : Bool :=
  match alookup k inv with
  | some (.group hosts _) => decide (n ∈ hosts)
  | _ => false

/-- The name `n` is a key of `_meta.hostvars`. -/
def inHostvars (n : Option String) (inv : Inventory) : Bool :=
  match alookup (some "_meta") inv with
  | some (.meta m) => (alookup n m).isSome
  | _ => false

/-- The stored hostvar `key` of host `n`, when all lookups succeed. -/
def hostvarLookup (n : Option String) (key : String) (inv : Inventory) :
    Option (Option String) :=
  match alookup (some "_meta") inv with
  | some (.meta m) =>
      match alookup n m with
      | some hv => alookup key hv
      | none => none
  | _ => none

theorem appendGroupHost_preserves_group (k m k' n : Option String)
    (inv inv' : Inventory) (hap : appendGroupHost k m inv = some inv')
    (hin : inGroupHosts k' n inv = true) : inGroupHosts k' n inv' = true := by
  unfold appendGroupHost at hap
  cases hl : alookup k inv with
  | none => rw [hl] at hap; cases hap
  | some val =>
      rw [hl] at hap
      cases val with
      | meta m0 => cases hap
      | group hosts ch =>
          injection hap with hap'
          subst hap'
          unfold inGroupHosts at hin ⊢
          by_cases hk : k' = k
          · subst hk
            rw [hl] at hin
            rw [alookup_aset_self]
            simp only [decide_eq_true_eq] at hin ⊢
            exact List.mem_append_left _ hin
          · rw [alookup_aset_ne k k' _ _ hk]
            exact hin

theorem appendGroupHost_preserves_hostvars (k m n : Option String)
    (inv inv' : Inventory) (hap : appendGroupHost k m inv = some inv')
    (hin : inHostvars n inv = true) : inHostvars n inv' = true := by
  unfold appendGroupHost at hap
  cases hl : alookup k inv with
  | none => rw [hl] at hap; cases hap
  | some val =>
      rw [hl] at hap
      cases val with
      | meta m0 => cases hap
      | group hosts ch =>
          injection hap with hap'
          subst hap'
          unfold inHostvars at hin ⊢
          by_cases hk : (some "_meta" : Option String) = k
          · rw [← hk] at hl
            rw [hl] at hin
            simp at hin
          · rw [alookup_aset_ne k (some "_meta") _ _ hk]
            exact hin

theorem appendGroupHost_establishes (k n : Option String)
    (inv inv' : Inventory) (hap : appendGroupHost k n inv = some inv') :
    inGroupHosts k n inv' = true := by
  unfold appendGroupHost at hap
  cases hl : alookup k inv with
  | none => rw [hl] at hap; cases hap
  | some val =>
      rw [hl] at hap
      cases val with
      | meta m0 => cases hap
      | group hosts ch =>
          injection hap with hap'
          subst hap'
          unfold inGroupHosts
          rw [alookup_aset_self]
          simp

theorem ensureGroup_preserves_group (k k' n : Option String) (inv : Inventory)
    (hin : inGroupHosts k' n inv = true) :
    inGroupHosts k' n (ensureGroup k inv) = true := by
  unfold ensureGroup
  split
  · exact hin
  · rename_i hm
    unfold inGroupHosts at hin ⊢
    by_cases hk : k' = k
    · subst hk
      cases hl : alookup k' inv with
      | none => rw [hl] at hin; simp at hin
      | some v =>
          exact absurd (by unfold amem; rw [hl]; rfl) hm
    · rw [alookup_aset_ne k k' _ _ hk]
      exact hin

theorem ensureGroup_preserves_hostvars (k n : Option String) (inv : Inventory)
    (hin : inHostvars n inv = true) :
    inHostvars n (ensureGroup k inv) = true := by
  unfold ensureGroup
  split
  · exact hin
  · rename_i hm
    unfold inHostvars at hin ⊢
    by_cases hk : (some "_meta" : Option String) = k
    · subst hk
      cases hl : alookup (some "_meta") inv with
      | none => rw [hl] at hin; simp at hin
      | some v =>
          exact absurd (by unfold amem; rw [hl]; rfl) hm
    · rw [alookup_aset_ne k (some "_meta") _ _ hk]
      exact hin

theorem setHostvar_preserves_group (kh : Option String) (hv : HostVars)
    (k' n : Option String) (inv inv' : Inventory)
    (hs : setHostvar kh hv inv = some inv')
    (hin : inGroupHosts k' n inv = true) : inGroupHosts k' n inv' = true := by
  unfold setHostvar at hs
  cases hl : alookup (some "_meta") inv with
  | none => rw [hl] at hs; cases hs
  | some val =>
      rw [hl] at hs
      cases val with
      | group h c => cases hs
      | meta m =>
          injection hs with hs'
          subst hs'
          unfold inGroupHosts at hin ⊢
          by_cases hk : k' = (some "_meta" : Option String)
          · subst hk
            rw [hl] at hin
            simp at hin
          · rw [alookup_aset_ne (some "_meta") k' _ _ hk]
            exact hin

theorem setHostvar_preserves_hostvars (kh : Option String) (hv : HostVars)
    (n : Option String) (inv inv' : Inventory)
    (hs : setHostvar kh hv inv = some inv')
    (hin : inHostvars n inv = true) : inHostvars n inv' = true := by
  unfold setHostvar at hs
  cases hl : alookup (some "_meta") inv with
  | none => rw [hl] at hs; cases hs
  | some val =>
      rw [hl] at hs
      cases val with
      | group h c => cases hs
      | meta m =>
          injection hs with hs'
          subst hs'
          unfold inHostvars at hin ⊢
          rw [hl] at hin
          rw [alookup_aset_self]
          replace hin : (alookup n m).isSome = true := hin
          show (alookup n (aset kh hv m)).isSome = true
          by_cases hk : n = kh
          · subst hk
            rw [alookup_aset_self]
            rfl
          · rw [alookup_aset_ne kh n _ _ hk]
            exact hin

theorem setHostvar_establishes (kh : Option String) (hv : HostVars)
    (inv inv' : Inventory) (hs : setHostvar kh hv inv = some inv') :
    inHostvars kh inv' = true := by
  unfold setHostvar at hs
  cases hl : alookup (some "_meta") inv with
  | none => rw [hl] at hs; cases hs
  | some val =>
      rw [hl] at hs
      cases val with
      | group h c => cases hs
      | meta m =>
          injection hs with hs'
          subst hs'
          unfold inHostvars
          rw [alookup_aset_self]
          show (alookup kh (aset kh hv m)).isSome = true
          rw [alookup_aset_self]
          rfl

theorem appendServerChild_preserves_group (nm k' n : Option String)
    (inv inv' : Inventory) (hap : appendServerChild nm inv = some inv')
    (hin : inGroupHosts k' n inv = true) : inGroupHosts k' n inv' = true := by
  unfold appendServerChild at hap
  cases hl : alookup (some "server") inv with
  | none => rw [hl] at hap; cases hap
  | some val =>
      rw [hl] at hap
      cases val with
      | meta m0 => cases hap
      | group hosts ch =>
          cases ch with
          | none => cases hap
          | some chl =>
              injection hap with hap'
              subst hap'
              unfold inGroupHosts at hin ⊢
              by_cases hk : k' = (some "server" : Option String)
              · subst hk
                rw [hl] at hin
                rw [alookup_aset_self]
                exact hin
              · rw [alookup_aset_ne (some "server") k' _ _ hk]
                exact hin

theorem appendServerChild_preserves_hostvars (nm n : Option String)
    (inv inv' : Inventory) (hap : appendServerChild nm inv = some inv')
    (hin : inHostvars n inv = true) : inHostvars n inv' = true := by
  unfold appendServerChild at hap
  cases hl : alookup (some "server") inv with
  | none => rw [hl] at hap; cases hap
  | some val =>
      rw [hl] at hap
      cases val with
      | meta m0 => cases hap
      | group hosts ch =>
          cases ch with
          | none => cases hap
          | some chl =>
              injection hap with hap'
              subst hap'
              unfold inHostvars at hin ⊢
              rw [alookup_aset_ne (some "server") (some "_meta") _ _ (by simp)]
              exact hin

theorem processMeta_preserves_group (hn : Option String) (gs : List String) :
    ∀ (inv inv' : Inventory) (k' n : Option String),
      processMeta hn gs inv = (true, inv') →
      inGroupHosts k' n inv = true → inGroupHosts k' n inv' = true := by
  induction gs with
  | nil =>
      intro inv inv' k' n h hin
      unfold processMeta at h
      injection h with _ h2
      subst h2
      exact hin
  | cons g t ih =>
      intro inv inv' k' n h hin
      unfold processMeta at h
      cases hap : appendGroupHost (some g) hn (ensureGroup (some g) inv) with
      | none => rw [hap] at h; simp at h
      | some inv2 =>
          rw [hap] at h
          exact ih inv2 inv' k' n h
            (appendGroupHost_preserves_group _ _ _ _ _ _ hap
              (ensureGroup_preserves_group _ _ _ _ hin))

theorem processMeta_preserves_hostvars (hn : Option String) (gs : List String) :
    ∀ (inv inv' : Inventory) (n : Option String),
      processMeta hn gs inv = (true, inv') →
      inHostvars n inv = true → inHostvars n inv' = true := by
  induction gs with
  | nil =>
      intro inv inv' n h hin
      unfold processMeta at h
      injection h with _ h2
      subst h2
      exact hin
  | cons g t ih =>
      intro inv inv' n h hin
      unfold processMeta at h
      cases hap : appendGroupHost (some g) hn (ensureGroup (some g) inv) with
      | none => rw [hap] at h; simp at h
      | some inv2 =>
          rw [hap] at h
          exact ih inv2 inv' n h
            (appendGroupHost_preserves_hostvars _ _ _ _ _ hap
              (ensureGroup_preserves_hostvars _ _ _ hin))

theorem processHost_preserves_group (env : Env) (hdrs : Headers)
    (vn : Option String) (h : Xml) (inv inv' : Inventory) (log : List Request)
    (k' n : Option String)
    (hp : processHost env hdrs vn h inv = ((true, inv'), log))
    (hin : inGroupHosts k' n inv = true) : inGroupHosts k' n inv' = true := by
  unfold processHost at hp
  split at hp
  · simp at hp
  · split at hp
    · simp at hp
    · split at hp
      · simp at hp
      · split at hp
        · simp at hp
        · split at hp
          · simp at hp
          · split at hp
            · simp at hp
            · split at hp
              · simp at hp
              · rename_i x1 href heq1 x2 doc heq2 x3 groups heq3 x4 inv1 heq4 x5 inv2 heq5 x6 inv3 heq6 x7 inv4 heq7
                injection hp with hp1 hp2
                injection hp1 with _ hpinv
                subst hpinv
                exact setHostvar_preserves_group _ _ _ _ _ _ heq7
                  (appendGroupHost_preserves_group _ _ _ _ _ _ heq6
                    (appendGroupHost_preserves_group _ _ _ _ _ _ heq5
                      (processMeta_preserves_group _ _ _ _ _ _ heq4 hin)))

theorem processHost_preserves_hostvars (env : Env) (hdrs : Headers)
    (vn : Option String) (h : Xml) (inv inv' : Inventory) (log : List Request)
    (n : Option String)
    (hp : processHost env hdrs vn h inv = ((true, inv'), log))
    (hin : inHostvars n inv = true) : inHostvars n inv' = true := by
  unfold processHost at hp
  split at hp
  · simp at hp
  · split at hp
    · simp at hp
    · split at hp
      · simp at hp
      · split at hp
        · simp at hp
        · split at hp
          · simp at hp
          · split at hp
            · simp at hp
            · split at hp
              · simp at hp
              · rename_i x1 href heq1 x2 doc heq2 x3 groups heq3 x4 inv1 heq4 x5 inv2 heq5 x6 inv3 heq6 x7 inv4 heq7
                injection hp with hp1 hp2
                injection hp1 with _ hpinv
                subst hpinv
                exact setHostvar_preserves_hostvars _ _ _ _ _ heq7
                  (appendGroupHost_preserves_hostvars _ _ _ _ _ heq6
                    (appendGroupHost_preserves_hostvars _ _ _ _ _ heq5
                      (processMeta_preserves_hostvars _ _ _ _ _ heq4 hin)))

theorem processHost_establishes (env : Env) (hdrs : Headers)
    (vn : Option String) (h : Xml) (inv inv' : Inventory) (log : List Request)
    (hp : processHost env hdrs vn h inv = ((true, inv'), log)) :
    inGroupHosts (some "server") (h.get "name") inv' = true
    ∧ inGroupHosts vn (h.get "name") inv' = true
    ∧ inHostvars (h.get "name") inv' = true := by
  unfold processHost at hp
  split at hp
  · simp at hp
  · split at hp
    · simp at hp
    · split at hp
      · simp at hp
      · split at hp
        · simp at hp
        · split at hp
          · simp at hp
          · split at hp
            · simp at hp
            · split at hp
              · simp at hp
              · rename_i x1 href heq1 x2 doc heq2 x3 groups heq3 x4 inv1 heq4 x5 inv2 heq5 x6 inv3 heq6 x7 inv4 heq7
                injection hp with hp1 hp2
                injection hp1 with _ hpinv
                subst hpinv
                refine ⟨?_, ?_, ?_⟩
                · exact setHostvar_preserves_group _ _ _ _ _ _ heq7
                    (appendGroupHost_preserves_group _ _ _ _ _ _ heq6
                      (appendGroupHost_establishes _ _ _ _ heq5))
                · exact setHostvar_preserves_group _ _ _ _ _ _ heq7
                    (appendGroupHost_establishes _ _ _ _ heq6)
                · exact setHostvar_establishes _ _ _ _ heq7

theorem processHosts_preserves_group (env : Env) (hdrs : Headers)
    (vn : Option String) (hs : List Xml) :
    ∀ (inv inv' : Inventory) (log : List Request) (k' n : Option String),
      processHosts env hdrs vn hs inv = ((true, inv'), log) →
      inGroupHosts k' n inv = true → inGroupHosts k' n inv' = true := by
  induction hs with
  | nil =>
      intro inv inv' log k' n h hin
      unfold processHosts at h
      injection h with h1 h2
      injection h1 with _ h3
      subst h3
      exact hin
  | cons hd t ih =>
      intro inv inv' log k' n h hin
      unfold processHosts at h
      split at h
      · simp at h
      · rename_i x inv1 log1 heq1
        split at h
        rename_i y ok2 inv2 log2 heq2
        injection h with h1 h2
        injection h1 with hok hinv
        subst hinv
        subst hok
        exact ih inv1 _ log2 k' n heq2
          (processHost_preserves_group env hdrs vn hd inv inv1 log1 k' n heq1 hin)

theorem processHosts_preserves_hostvars (env : Env) (hdrs : Headers)
    (vn : Option String) (hs : List Xml) :
    ∀ (inv inv' : Inventory) (log : List Request) (n : Option String),
      processHosts env hdrs vn hs inv = ((true, inv'), log) →
      inHostvars n inv = true → inHostvars n inv' = true := by
  induction hs with
  | nil =>
      intro inv inv' log n h hin
      unfold processHosts at h
      injection h with h1 h2
      injection h1 with _ h3
      subst h3
      exact hin
  | cons hd t ih =>
      intro inv inv' log n h hin
      unfold processHosts at h
      split at h
      · simp at h
      · rename_i x inv1 log1 heq1
        split at h
        rename_i y ok2 inv2 log2 heq2
        injection h with h1 h2
        injection h1 with hok hinv
        subst hinv
        subst hok
        exact ih inv1 _ log2 n heq2
          (processHost_preserves_hostvars env hdrs vn hd inv inv1 log1 n heq1 hin)

theorem processHosts_establishes (env : Env) (hdrs : Headers)
    (vn : Option String) (hs : List Xml) :
    ∀ (inv inv' : Inventory) (log : List Request) (h : Xml),
      processHosts env hdrs vn hs inv = ((true, inv'), log) →
      h ∈ hs →
      inGroupHosts (some "server") (h.get "name") inv' = true
      ∧ inGroupHosts vn (h.get "name") inv' = true
      ∧ inHostvars (h.get "name") inv' = true := by
  induction hs with
  | nil => intro inv inv' log h _ hmem; simp at hmem
  | cons hd t ih =>
      intro inv inv' log h hp hmem
      unfold processHosts at hp
      split at hp
      · simp at hp
      · rename_i x inv1 log1 heq1
        split at hp
        rename_i y ok2 inv2 log2 heq2
        injection hp with hp1 hp2
        injection hp1 with hok hinv
        subst hinv
        subst hok
        rcases List.mem_cons.mp hmem with hmem | hmem
        · subst hmem
          obtain ⟨e1, e2, e3⟩ := processHost_establishes env hdrs vn h inv inv1 log1 heq1
          exact ⟨processHosts_preserves_group env hdrs vn t inv1 _ log2 _ _ heq2 e1,
                 processHosts_preserves_group env hdrs vn t inv1 _ log2 _ _ heq2 e2,
                 processHosts_preserves_hostvars env hdrs vn t inv1 _ log2 _ heq2 e3⟩
        · exact ih inv1 _ log2 h heq2 hmem

theorem processVapp_preserves_group (env : Env) (hdrs : Headers) (v : Xml)
    (inv inv' : Inventory) (log : List Request) (k' n : Option String)
    (hp : processVapp env hdrs v inv = ((true, inv'), log))
    (hin : inGroupHosts k' n inv = true) : inGroupHosts k' n inv' = true := by
  unfold processVapp at hp
  split at hp
  · simp at hp
  · simp at hp
  · rename_i inv1 href heq1 heq2
    split at hp
    · simp at hp
    · rename_i doc heq3
      split at hp
      rename_i z ok inv3 log2 heq4
      injection hp with hp1 hp2
      injection hp1 with hok hinv
      subst hinv
      subst hok
      exact processHosts_preserves_group env hdrs (v.get "name") (doc.iterTag vmTag)
        _ _ _ k' n heq4
        (ensureGroup_preserves_group _ _ _ _
          (appendServerChild_preserves_group _ _ _ _ _ heq1 hin))

theorem processVapp_preserves_hostvars (env : Env) (hdrs : Headers) (v : Xml)
    (inv inv' : Inventory) (log : List Request) (n : Option String)
    (hp : processVapp env hdrs v inv = ((true, inv'), log))
    (hin : inHostvars n inv = true) : inHostvars n inv' = true := by
  unfold processVapp at hp
  split at hp
  · simp at hp
  · simp at hp
  · rename_i inv1 href heq1 heq2
    split at hp
    · simp at hp
    · rename_i doc heq3
      split at hp
      rename_i z ok inv3 log2 heq4
      injection hp with hp1 hp2
      injection hp1 with hok hinv
      subst hinv
      subst hok
      exact processHosts_preserves_hostvars env hdrs (v.get "name") (doc.iterTag vmTag)
        _ _ _ n heq4
        (ensureGroup_preserves_hostvars _ _ _
          (appendServerChild_preserves_hostvars _ _ _ _ heq1 hin))

theorem processVapp_establishes (env : Env) (hdrs : Headers) (v : Xml)
    (inv inv' : Inventory) (log : List Request) (href : String) (vdoc : Xml)
    (h : Xml)
    (hp : processVapp env hdrs v inv = ((true, inv'), log))
    (hhref : v.get "href" = some href)
    (hfetch : env.fetch href hdrs = some vdoc)
    (hmem : h ∈ vdoc.iterTag vmTag) :
    inGroupHosts (some "server") (h.get "name") inv' = true
    ∧ inGroupHosts (v.get "name") (h.get "name") inv' = true
    ∧ inHostvars (h.get "name") inv' = true := by
  unfold processVapp at hp
  split at hp
  · simp at hp
  · simp at hp
  · rename_i inv1 href2 heq1 heq2
    rw [hhref] at heq2
    injection heq2 with heq2'
    subst heq2'
    split at hp
    · simp at hp
    · rename_i doc heq3
      rw [hfetch] at heq3
      injection heq3 with heq3'
      subst heq3'
      split at hp
      rename_i z ok inv3 log2 heq4
      injection hp with hp1 hp2
      injection hp1 with hok hinv
      subst hinv
      subst hok
      exact processHosts_establishes env hdrs (v.get "name") (vdoc.iterTag vmTag)
        _ _ _ h heq4 hmem

theorem processVapps_preserves_group (env : Env) (hdrs : Headers)
    (vs : List Xml) :
    ∀ (inv inv' : Inventory) (log : List Request) (k' n : Option String),
      processVapps env hdrs vs inv = ((true, inv'), log) →
      inGroupHosts k' n inv = true → inGroupHosts k' n inv' = true := by
  induction vs with
  | nil =>
      intro inv inv' log k' n h hin
      unfold processVapps at h
      injection h with h1 h2
      injection h1 with _ h3
      subst h3
      exact hin
  | cons v t ih =>
      intro inv inv' log k' n h hin
      unfold processVapps at h
      split at h
      · simp at h
      · rename_i x inv1 log1 heq1
        split at h
        rename_i y ok2 inv2 log2 heq2
        injection h with h1 h2
        injection h1 with hok hinv
        subst hinv
        subst hok
        exact ih inv1 _ log2 k' n heq2
          (processVapp_preserves_group env hdrs v inv inv1 log1 k' n heq1 hin)

theorem processVapps_preserves_hostvars (env : Env) (hdrs : Headers)
    (vs : List Xml) :
    ∀ (inv inv' : Inventory) (log : List Request) (n : Option String),
      processVapps env hdrs vs inv = ((true, inv'), log) →
      inHostvars n inv = true → inHostvars n inv' = true := by
  induction vs with
  | nil =>
      intro inv inv' log n h hin
      unfold processVapps at h
      injection h with h1 h2
      injection h1 with _ h3
      subst h3
      exact hin
  | cons v t ih =>
      intro inv inv' log n h hin
      unfold processVapps at h
      split at h
      · simp at h
      · rename_i x inv1 log1 heq1
        split at h
        rename_i y ok2 inv2 log2 heq2
        injection h with h1 h2
        injection h1 with hok hinv
        subst hinv
        subst hok
        exact ih inv1 _ log2 n heq2
          (processVapp_preserves_hostvars env hdrs v inv inv1 log1 n heq1 hin)

theorem processVapps_establishes (env : Env) (hdrs : Headers) (vs : List Xml) :
    ∀ (inv inv' : Inventory) (log : List Request) (v : Xml) (href : String)
      (vdoc : Xml) (h : Xml),
      processVapps env hdrs vs inv = ((true, inv'), log) →
      v ∈ vs →
      v.get "href" = some href →
      env.fetch href hdrs = some vdoc →
      h ∈ vdoc.iterTag vmTag →
      inGroupHosts (some "server") (h.get "name") inv' = true
      ∧ inGroupHosts (v.get "name") (h.get "name") inv' = true
      ∧ inHostvars (h.get "name") inv' = true := by
  induction vs with
  | nil => intro inv inv' log v href vdoc h _ hmem; simp at hmem
  | cons v0 t ih =>
      intro inv inv' log v href vdoc h hp hmem hhref hfetch hhm
      unfold processVapps at hp
      split at hp
      · simp at hp
      · rename_i x inv1 log1 heq1
        split at hp
        rename_i y ok2 inv2 log2 heq2
        injection hp with hp1 hp2
        injection hp1 with hok hinv
        subst hinv
        subst hok
        rcases List.mem_cons.mp hmem with hmem | hmem
        · subst hmem
          obtain ⟨e1, e2, e3⟩ := processVapp_establishes env hdrs v inv inv1 log1
            href vdoc h heq1 hhref hfetch hhm
          exact ⟨processVapps_preserves_group env hdrs t inv1 _ log2 _ _ heq2 e1,
                 processVapps_preserves_group env hdrs t inv1 _ log2 _ _ heq2 e2,
                 processVapps_preserves_hostvars env hdrs t inv1 _ log2 _ heq2 e3⟩
        · exact ih inv1 _ log2 v href vdoc h heq2 hmem hhref hfetch hhm

/-- A host (`Vm`) element with no namespaced `IpAddress` element
anywhere in its subtree. -/
def sampleVm : Xml :=
  .elem vmTag [("name", "web1"), ("href", "http://vcd/vm1")] none .nil

def sampleQueryDoc : Xml :=
  .elem "QueryResultRecords" [] none
    (.cons (.elem vappRecordTag
      [("name", "vapp1"), ("href", "http://vcd/vapp1")] none .nil) .nil)

def sampleVappDoc : Xml :=
  .elem "VApp" [] none (.cons sampleVm .nil)

def sampleMetaDoc : Xml := .elem "Metadata" [] none .nil

/-- A remote API serving one vApp `vapp1` containing one IP-less host
`web1` with no metadata entries. -/
def sampleEnv : Env :=
  ⟨some "tok",
   fun url _ =>
     if url = "http://vcd/vApps/query" then some sampleQueryDoc
     else if url = "http://vcd/vapp1" then some sampleVappDoc
     else if url = "http://vcd/vm1/metadata" then some sampleMetaDoc
     else none⟩

def sampleState : CState :=
  ⟨"http://vcd", [("Accept", "application/*+xml;version=30.0")],
   empty_inventory, none⟩

/-- **C1 (counterexample).** A refresh that discovers the IP-less host
`web1` completes and places `web1` in `server.hosts`, in its vApp
group's hosts and in `_meta.hostvars` — with hostvar `ansible_host`
stored as Python `None` — refuting "appears nowhere in the snapshot". -/
theorem ipless_host_in_snapshot :
    search_within_attrs sampleVm ipAddressTag true "" = none
    ∧ (call_update_cache sampleEnv sampleState).ok = true
    ∧ inGroupHosts (some "server") (some "web1")
        (call_update_cache sampleEnv sampleState).state.inv = true
    ∧ inGroupHosts (some "vapp1") (some "web1")
        (call_update_cache sampleEnv sampleState).state.inv = true
    ∧ inHostvars (some "web1")
        (call_update_cache sampleEnv sampleState).state.inv = true
    ∧ hostvarLookup (some "web1") "ansible_host"
        (call_update_cache sampleEnv sampleState).state.inv = some none := by
  exact ⟨rfl, rfl, rfl, rfl, rfl, rfl⟩

/-- A host with no `IpAddress` element and no `OVERRIDE` entry gets
`ansible_host = None` in its merged attributes. -/
theorem merge_available_attrs_no_ip :
    ∀ (h : Xml), search_within_attrs h ipAddressTag true "" = none →
      (∀ n0, h.get "name" = some n0 → alookup n0 OVERRIDE = none) →
      alookup "ansible_host" (merge_available_attrs h) = some none := by
  intro h hs hov
  unfold merge_available_attrs
  cases hn : h.get "name" with
  | none =>
      rw [hs]
      decide
  | some n0 =>
      simp only [hov n0 hn, hs]
      decide

/-- **C1 (amended).** Every host discovered during a completed refresh
appears in `server.hosts`, in its vApp group's hosts and as a key of
`_meta.hostvars`, regardless of whether its subtree contains an
`IpAddress` element; when the `IpAddress` search finds nothing (and the
host is not a static `OVERRIDE` entry), the stored `ansible_host`
variable is `None` rather than the host being excluded. -/
theorem call_update_cache_includes_every_host :
    ∀ (env : Env) (st : CState) (r : RunResult) (tok : String) (doc : Xml)
      (v : Xml) (href : String) (vdoc : Xml) (h : Xml),
      call_update_cache env st = r →
      env.authToken = some tok →
      env.fetch (st.base_url ++ "/vApps/query")
        (aset "x-vcloud-authorization" tok st.headers) = some doc →
      v ∈ doc.findallTag vappRecordTag →
      v.get "href" = some href →
      env.fetch href (aset "x-vcloud-authorization" tok st.headers) = some vdoc →
      h ∈ vdoc.iterTag vmTag →
      r.ok = true →
      inGroupHosts (some "server") (h.get "name") r.state.inv = true
      ∧ inGroupHosts (v.get "name") (h.get "name") r.state.inv = true
      ∧ inHostvars (h.get "name") r.state.inv = true
      ∧ (search_within_attrs h ipAddressTag true "" = none →
         (∀ n0, h.get "name" = some n0 → alookup n0 OVERRIDE = none) →
         alookup "ansible_host" (merge_available_attrs h) = some none) := by
  intro env st r tok doc v href vdoc h hr htok hq hv hhref hf hh hok
  have hauth : authenticate_to_api env st.headers =
      some (aset "x-vcloud-authorization" tok st.headers) := by
    simp [authenticate_to_api, htok]
  unfold call_update_cache at hr
  split at hr
  · rename_i heq
    rw [hauth] at heq
    cases heq
  · rename_i hdrs heq
    rw [hauth] at heq
    injection heq with heq'
    subst heq'
    split at hr
    · subst hr
      simp at hok
    · rename_i doc2 heq2
      rw [hq] at heq2
      injection heq2 with heq2'
      subst heq2'
      split at hr
      · rename_i inv1 log2 heq3
        subst hr
        obtain ⟨e1, e2, e3⟩ := processVapps_establishes env _
          (doc.findallTag vappRecordTag) st.inv inv1 log2 v href vdoc h
          heq3 hv hhref hf hh
        exact ⟨e1, e2, e3, fun hs hov => merge_available_attrs_no_ip h hs hov⟩
      · rename_i inv1 log2 heq3
        subst hr
        simp at hok

/-- Witness for `call_update_cache_includes_every_host` on the
`sampleEnv` run. -/
theorem call_update_cache_includes_every_host_witness :
    inGroupHosts (some "server") (sampleVm.get "name")
      (call_update_cache sampleEnv sampleState).state.inv = true
    ∧ inGroupHosts ((Xml.elem vappRecordTag
        [("name", "vapp1"), ("href", "http://vcd/vapp1")] none .nil).get "name")
        (sampleVm.get "name")
      (call_update_cache sampleEnv sampleState).state.inv = true
    ∧ inHostvars (sampleVm.get "name")
      (call_update_cache sampleEnv sampleState).state.inv = true
    ∧ (search_within_attrs sampleVm ipAddressTag true "" = none →
       (∀ n0, sampleVm.get "name" = some n0 → alookup n0 OVERRIDE = none) →
       alookup "ansible_host" (merge_available_attrs sampleVm) = some none) :=
  call_update_cache_includes_every_host sampleEnv sampleState
    (call_update_cache sampleEnv sampleState) "tok" sampleQueryDoc
    (Xml.elem vappRecordTag [("name", "vapp1"), ("href", "http://vcd/vapp1")] none .nil)
    "http://vcd/vapp1" sampleVappDoc sampleVm
    rfl rfl (by decide) (by decide) (by decide) (by decide) (by decide) rfl

/-! ## JSON values and `json.dumps` / `json.loads`

The snapshot that `write_to_cache` serializes contains only `None`,
strings, lists and string-keyed dicts, so JSON values are embedded with
those four constructors (own list/object spine types keep the mutual
recursion structural).  `json.dumps(data, sort_keys=True, indent=2)` is
the sorted pretty printer (`,`/`: ` item separators, two-space indent,
the standard escape sequences); `json.loads` is the parser. -/

mutual

inductive Json : Type where
  | null : Json
  | str (s : String) : Json
  | arr (xs : JsonList) : Json
  | obj (kvs : JsonObj) : Json
  deriving DecidableEq

inductive JsonList : Type where
  | nil : JsonList
  | cons (hd : Json) (tl : JsonList) : JsonList
  deriving DecidableEq

inductive JsonObj : Type where
  | nil : JsonObj
  | cons (k : String) (v : Json) (tl : JsonObj) : JsonObj
  deriving DecidableEq

end

mutual

def Json.size : Json → Nat
  | .null => 1
  | .str _ => 1
  | .arr xs => 1 + xs.sizeL
  | .obj kvs => 1 + kvs.sizeO

def JsonList.sizeL : JsonList → Nat
  | .nil => 1
  | .cons h t => 1 + h.size + t.sizeL

def JsonObj.sizeO : JsonObj → Nat
  | .nil => 1
  | .cons _ v t => 1 + v.size + t.sizeO

end

/-- The escape sequences `json.dumps` emits for the characters the
parser's unescape understands. -/
def escapeChar (c : Char) : List Char :=
  if c = '"' then ['\\', '"']
  else if c = '\\' then ['\\', '\\']
  else if c = '\n' then ['\\', 'n']
  else if c = '\t' then ['\\', 't']
  else if c = '\r' then ['\\', 'r']
  else [c]

def escList : List Char → List Char
  | [] => []
  | c :: t => escapeChar c ++ escList t

/-- A double-quoted JSON string literal. -/
def printStr (s : String) : List Char := '"' :: (escList s.data ++ ['"'])

def isWsChar (c : Char) : Bool := c = ' ' || c = '\n' || c = '\t' || c = '\r'

def spaces : Nat → List Char
  | 0 => []
  | n + 1 => ' ' :: spaces n

mutual

/-- `json.dumps(·, indent=2)` at indent level `ind`, keys already in
sorted order (see `sortDeep`). -/
def prettyR (ind : Nat) : Json → List Char
  | .null => ['n', 'u', 'l', 'l']
  | .str s => printStr s
  | .arr .nil => ['[', ']']
  | .arr (.cons h t) =>
      '[' :: '\n' :: (spaces (ind + 2) ++
        (prettyItems (ind + 2) h t ++ '\n' :: (spaces ind ++ [']'])))
  | .obj .nil => ['\x7b', '\x7d']
  | .obj (.cons k v t) =>
      '\x7b' :: '\n' :: (spaces (ind + 2) ++
        (prettyEntries (ind + 2) k v t ++ '\n' :: (spaces ind ++ ['\x7d'])))
termination_by j => sizeOf j

def prettyItems (ind : Nat) (h : Json) (t : JsonList) : List Char :=
  match t with
  | .nil => prettyR ind h
  | .cons h2 t2 =>
      prettyR ind h ++ ',' :: '\n' :: (spaces ind ++ prettyItems ind h2 t2)
termination_by sizeOf h + sizeOf t

def prettyEntries (ind : Nat) (k : String) (v : Json) (t : JsonObj) : List Char :=
  match t with
  | .nil => printStr k ++ ':' :: ' ' :: prettyR ind v
  | .cons k2 v2 t2 =>
      printStr k ++ ':' :: ' ' :: prettyR ind v
        ++ ',' :: '\n' :: (spaces ind ++ prettyEntries ind k2 v2 t2)
termination_by sizeOf v + sizeOf t

end

/-- Ordered insertion by key (`sort_keys=True` building block). -/
def insObj (k : String) (v : Json) : JsonObj → JsonObj
  | .nil => .cons k v .nil
  | .cons k2 v2 t =>
      if k ≤ k2 then .cons k v (.cons k2 v2 t) else .cons k2 v2 (insObj k v t)

def sortObj : JsonObj → JsonObj
  | .nil => .nil
  | .cons k v t => insObj k v (sortObj t)

mutual

/-- Sort every object's keys, recursively (`sort_keys=True`). -/
def sortDeep : Json → Json
  | .null => .null
  | .str s => .str s
  | .arr xs => .arr (sortDeepL xs)
  | .obj kvs => .obj (sortObj (sortDeepO kvs))

def sortDeepL : JsonList → JsonList
  | .nil => .nil
  | .cons h t => .cons (sortDeep h) (sortDeepL t)

def sortDeepO : JsonObj → JsonObj
  | .nil => .nil
  | .cons k v t => .cons k (sortDeep v) (sortDeepO t)

end

mutual

/-- `json.dumps` without `indent` (separators `', '` and `': '`),
used by `json_format_dict` when `pretty` is false. -/
def compactR : Json → List Char
  | .null => ['n', 'u', 'l', 'l']
  | .str s => printStr s
  | .arr .nil => ['[', ']']
  | .arr (.cons h t) => '[' :: (compactItems h t ++ [']'])
  | .obj .nil => ['\x7b', '\x7d']
  | .obj (.cons k v t) => '\x7b' :: (compactEntries k v t ++ ['\x7d'])
termination_by j => sizeOf j

def compactItems (h : Json) (t : JsonList) : List Char :=
  match t with
  | .nil => compactR h
  | .cons h2 t2 => compactR h ++ ',' :: ' ' :: compactItems h2 t2
termination_by sizeOf h + sizeOf t

def compactEntries (k : String) (v : Json) (t : JsonObj) : List Char :=
  match t with
  | .nil => printStr k ++ ':' :: ' ' :: compactR v
  | .cons k2 v2 t2 =>
      printStr k ++ ':' :: ' ' :: compactR v ++ ',' :: ' ' :: compactEntries k2 v2 t2
termination_by sizeOf v + sizeOf t

end

/-- `json_format_dict(data, pretty)`: `json.dumps(data, sort_keys=True,
indent=2)` when pretty, `json.dumps(data)` otherwise. -/
def json_format_dict (data : Json) (pretty : Bool) : List Char :=
  if pretty then prettyR 0 (sortDeep data) else compactR data

/-- `write_to_cache`: the file ends up holding exactly the pretty JSON
text. -/
def write_to_cache (data : Json) : List Char := json_format_dict data true

/-- `inventory_from_cache`: returns the cache file's text verbatim. -/
def inventory_from_cache (cacheFileContent : List Char) : List Char :=
  cacheFileContent

def skipWs : List Char → List Char
  | [] => []
  | c :: t => if isWsChar c then skipWs t else c :: t

def unescapeChar (c : Char) : Option Char :=
  if c = '"' then some '"'
  else if c = '\\' then some '\\'
  else if c = 'n' then some '\n'
  else if c = 't' then some '\t'
  else if c = 'r' then some '\r'
  else none

mutual

/-- Parse the remainder of a string literal (after the opening quote). -/
def parseStr : List Char → Option (List Char × List Char)
  | [] => none
  | c :: r =>
      if c = '\\' then parseStrEsc r
      else if c = '"' then some ([], r)
      else (parseStr r).map (fun p => (c :: p.1, p.2))
termination_by s => s.length

/-- Decode the character following a backslash. -/
def parseStrEsc : List Char → Option (List Char × List Char)
  | [] => none
  | e :: r2 =>
      match unescapeChar e with
      | some c2 => (parseStr r2).map (fun p => (c2 :: p.1, p.2))
      | none => none
termination_by s => s.length

end

mutual

/-- `json.loads`-style value parser (fuel-indexed). -/
def parseVal : Nat → List Char → Option (Json × List Char)
  | 0, _ => none
  | f + 1, s =>
      match skipWs s with
      | 'n' :: 'u' :: 'l' :: 'l' :: r => some (.null, r)
      | '"' :: r =>
          match parseStr r with
          | some (cs, r2) => some (.str ⟨cs⟩, r2)
          | none => none
      | '[' :: r =>
          match skipWs r with
          | ']' :: r2 => some (.arr .nil, r2)
          | r2 =>
              match parseArrItems f r2 with
              | some (vs, r3) => some (.arr vs, r3)
              | none => none
      | '\x7b' :: r =>
          match skipWs r with
          | '\x7d' :: r2 => some (.obj .nil, r2)
          | r2 =>
              match parseObjItems f r2 with
              | some (kvs, r3) => some (.obj kvs, r3)
              | none => none
      | _ => none

/-- One-or-more comma-separated array items, then `]`. -/
def parseArrItems : Nat → List Char → Option (JsonList × List Char)
  | 0, _ => none
  | f + 1, s =>
      match parseVal f s with
      | some (v, r) =>
          match skipWs r with
          | ',' :: r2 =>
              match parseArrItems f r2 with
              | some (vs, r3) => some (.cons v vs, r3)
              | none => none
          | ']' :: r2 => some (.cons v .nil, r2)
          | _ => none
      | none => none

/-- One-or-more `"key": value` entries, then `}`. -/
def parseObjItems : Nat → List Char → Option (JsonObj × List Char)
  | 0, _ => none
  | f + 1, s =>
      match skipWs s with
      | '"' :: r =>
          match parseStr r with
          | some (kcs, r2) =>
              match skipWs r2 with
              | ':' :: r3 =>
                  match parseVal f r3 with
                  | some (v, r4) =>
                      match skipWs r4 with
                      | ',' :: r5 =>
                          match parseObjItems f r5 with
                          | some (kvs, r6) => some (.cons ⟨kcs⟩ v kvs, r6)
                          | none => none
                      | '\x7d' :: r5 => some (.cons ⟨kcs⟩ v .nil, r5)
                      | _ => none
                  | none => none
              | _ => none
          | none => none
      | _ => none

end

/-- `json.loads`: parse one value, allow only trailing whitespace. -/
def parseJson (s : List Char) : Option Json :=
  match parseVal (s.length + 1) s with
  | some (v, r) => if skipWs r = [] then some v else none
  | none => none

/-! ### Parser facts -/

theorem skipWs_ws (c : Char) (s : List Char) (h : isWsChar c = true) :
    skipWs (c :: s) = skipWs s := by simp [skipWs, h]

theorem skipWs_not_ws (c : Char) (s : List Char) (h : isWsChar c = false) :
    skipWs (c :: s) = c :: s := by simp [skipWs, h]

theorem skipWs_spaces_append (n : Nat) (s : List Char) :
    skipWs (spaces n ++ s) = skipWs s := by
  induction n with
  | zero => rfl
  | succ n ih => rw [spaces, List.cons_append, skipWs_ws _ _ (by decide), ih]

theorem skipWs_idem (s : List Char) : skipWs (skipWs s) = skipWs s := by
  induction s with
  | nil => rfl
  | cons c t ih =>
      by_cases h : isWsChar c = true
      · rw [skipWs_ws _ _ h]
        exact ih
      · have h' : isWsChar c = false := by simpa using h
        rw [skipWs_not_ws _ _ h', skipWs_not_ws _ _ h']

theorem parseVal_congr (f : Nat) (s1 s2 : List Char) (h : skipWs s1 = skipWs s2) :
    parseVal f s1 = parseVal f s2 := by
  cases f with
  | zero => rfl
  | succ f =>
      unfold parseVal
      rw [h]

theorem parseObjItems_congr (f : Nat) (s1 s2 : List Char)
    (h : skipWs s1 = skipWs s2) : parseObjItems f s1 = parseObjItems f s2 := by
  cases f with
  | zero => rfl
  | succ f =>
      unfold parseObjItems
      rw [h]

theorem parseArrItems_congr (f : Nat) (s1 s2 : List Char)
    (h : skipWs s1 = skipWs s2) : parseArrItems f s1 = parseArrItems f s2 := by
  cases f with
  | zero => rfl
  | succ f =>
      unfold parseArrItems
      rw [parseVal_congr f s1 s2 h]

theorem parseStr_escList (cs : List Char) :
    ∀ rest : List Char, parseStr (escList cs ++ '"' :: rest) = some (cs, rest) := by
  induction cs with
  | nil => intro rest; simp [escList, parseStr]
  | cons c t ih =>
      intro rest
      by_cases h1 : c = '"' <;> by_cases h2 : c = '\\' <;>
        by_cases h3 : c = '\n' <;> by_cases h4 : c = '\t' <;>
          by_cases h5 : c = '\r' <;>
            first
            | simp_all [escList, escapeChar, unescapeChar, parseStr, parseStrEsc]
            | (have he : escList (c :: t) = c :: escList t := by
                 simp [escList, escapeChar, h1, h2, h3, h4, h5]
               rw [he, List.cons_append, parseStr, if_neg h2, if_neg h1, ih]
               rfl)

mutual

theorem lenA : ∀ (x : Json) (ind : Nat), x.size ≤ (prettyR ind x).length
  | .null, ind => by simp [Json.size, prettyR]
  | .str s, ind => by
      simp only [Json.size, prettyR, printStr, List.length_cons]
      omega
  | .arr .nil, ind => by simp [Json.size, JsonList.sizeL, prettyR]
  | .arr (.cons h t), ind => by
      have hb := lenB h t (ind + 2)
      simp only [Json.size, JsonList.sizeL, prettyR, List.length_cons,
        List.length_append]
      omega
  | .obj .nil, ind => by simp [Json.size, JsonObj.sizeO, prettyR]
  | .obj (.cons k v t), ind => by
      have hc := lenC k v t (ind + 2)
      simp only [Json.size, JsonObj.sizeO, prettyR, List.length_cons,
        List.length_append]
      omega
termination_by x ind => sizeOf x

theorem lenB : ∀ (h : Json) (t : JsonList) (ind : Nat),
    h.size + t.sizeL ≤ (prettyItems ind h t).length + 1
  | h, .nil, ind => by
      have ha := lenA h ind
      simp only [JsonList.sizeL, prettyItems]
      omega
  | h, .cons h2 t2, ind => by
      have ha := lenA h ind
      have hb := lenB h2 t2 ind
      simp only [JsonList.sizeL, prettyItems, List.length_append, List.length_cons]
      omega
termination_by h t ind => sizeOf h + sizeOf t

theorem lenC : ∀ (k : String) (v : Json) (t : JsonObj) (ind : Nat),
    1 + v.size + t.sizeO ≤ (prettyEntries ind k v t).length + 2
  | k, v, .nil, ind => by
      have ha := lenA v ind
      simp only [JsonObj.sizeO, prettyEntries, List.length_append, List.length_cons]
      omega
  | k, v, .cons k2 v2 t2, ind => by
      have ha := lenA v ind
      have hc := lenC k2 v2 t2 ind
      simp only [JsonObj.sizeO, prettyEntries, List.length_append, List.length_cons]
      omega
termination_by k v t ind => sizeOf v + sizeOf t

end

theorem parseVal_null_step (f : Nat) (r : List Char) :
    parseVal (f + 1) ('n' :: 'u' :: 'l' :: 'l' :: r) = some (.null, r) := rfl

theorem parseVal_str_step (f : Nat) (r : List Char) :
    parseVal (f + 1) ('"' :: r) =
      (match parseStr r with
       | some (cs, r2) => some (.str ⟨cs⟩, r2)
       | none => none) := rfl

theorem parseVal_arrNil_step (f : Nat) (r r2 : List Char)
    (h : skipWs r = ']' :: r2) :
    parseVal (f + 1) ('[' :: r) = some (.arr .nil, r2) := by
  have h0 : parseVal (f + 1) ('[' :: r) =
      (match skipWs r with
       | ']' :: r2 => some (.arr .nil, r2)
       | r2 =>
           match parseArrItems f r2 with
           | some (vs, r3) => some (.arr vs, r3)
           | none => none) := rfl
  rw [h0, h]
  rfl

theorem parseVal_arr_step (f : Nat) (r : List Char) (c : Char) (cs : List Char)
    (hr : skipWs r = c :: cs) (hc : c ≠ ']') :
    parseVal (f + 1) ('[' :: r) =
      (match parseArrItems f (c :: cs) with
       | some (vs, r3) => some (.arr vs, r3)
       | none => none) := by
  have h0 : parseVal (f + 1) ('[' :: r) =
      (match skipWs r with
       | ']' :: r2 => some (.arr .nil, r2)
       | r2 =>
           match parseArrItems f r2 with
           | some (vs, r3) => some (.arr vs, r3)
           | none => none) := rfl
  rw [h0, hr]
  split
  · rename_i r2 heq
    injection heq with he _
    exact absurd he hc
  · rfl

theorem parseVal_objNil_step (f : Nat) (r r2 : List Char)
    (h : skipWs r = '\x7d' :: r2) :
    parseVal (f + 1) ('\x7b' :: r) = some (.obj .nil, r2) := by
  have h0 : parseVal (f + 1) ('\x7b' :: r) =
      (match skipWs r with
       | '\x7d' :: r2 => some (.obj .nil, r2)
       | r2 =>
           match parseObjItems f r2 with
           | some (kvs, r3) => some (.obj kvs, r3)
           | none => none) := rfl
  rw [h0, h]
  rfl

theorem parseVal_obj_step (f : Nat) (r : List Char) (c : Char) (cs : List Char)
    (hr : skipWs r = c :: cs) (hc : c ≠ '\x7d') :
    parseVal (f + 1) ('\x7b' :: r) =
      (match parseObjItems f (c :: cs) with
       | some (kvs, r3) => some (.obj kvs, r3)
       | none => none) := by
  have h0 : parseVal (f + 1) ('\x7b' :: r) =
      (match skipWs r with
       | '\x7d' :: r2 => some (.obj .nil, r2)
       | r2 =>
           match parseObjItems f r2 with
           | some (kvs, r3) => some (.obj kvs, r3)
           | none => none) := rfl
  rw [h0, hr]
  split
  · rename_i r2 heq
    injection heq with he _
    exact absurd he hc
  · rfl

theorem parseArrItems_step (f : Nat) (s : List Char) :
    parseArrItems (f + 1) s =
      (match parseVal f s with
       | some (v, r) =>
           match skipWs r with
           | ',' :: r2 =>
               match parseArrItems f r2 with
               | some (vs, r3) => some (.cons v vs, r3)
               | none => none
           | ']' :: r2 => some (.cons v .nil, r2)
           | _ => none
       | none => none) := rfl

theorem parseArrItems_last (f : Nat) (s sep rest : List Char) (v : Json)
    (h1 : parseVal f s = some (v, sep)) (h2 : skipWs sep = ']' :: rest) :
    parseArrItems (f + 1) s = some (.cons v .nil, rest) := by
  simp only [parseArrItems_step, h1, h2]

theorem parseArrItems_more (f : Nat) (s sep rest2 rest3 : List Char) (v : Json)
    (vs : JsonList)
    (h1 : parseVal f s = some (v, sep)) (h2 : skipWs sep = ',' :: rest2)
    (h3 : parseArrItems f rest2 = some (vs, rest3)) :
    parseArrItems (f + 1) s = some (.cons v vs, rest3) := by
  simp only [parseArrItems_step, h1, h2, h3]

theorem parseObjItems_step (f : Nat) (s : List Char) :
    parseObjItems (f + 1) s =
      (match skipWs s with
       | '"' :: r =>
           match parseStr r with
           | some (kcs, r2) =>
               match skipWs r2 with
               | ':' :: r3 =>
                   match parseVal f r3 with
                   | some (v, r4) =>
                       match skipWs r4 with
                       | ',' :: r5 =>
                           match parseObjItems f r5 with
                           | some (kvs, r6) => some (.cons ⟨kcs⟩ v kvs, r6)
                           | none => none
                       | '\x7d' :: r5 => some (.cons ⟨kcs⟩ v .nil, r5)
                       | _ => none
                   | none => none
               | _ => none
           | none => none
       | _ => none) := rfl

theorem parseObjItems_last (f : Nat) (s r r2 r4 rest : List Char)
    (r3 : List Char) (kcs : List Char) (v : Json)
    (hs : skipWs s = '"' :: r)
    (h1 : parseStr r = some (kcs, r2))
    (h2 : skipWs r2 = ':' :: r3)
    (h3 : parseVal f r3 = some (v, r4))
    (h4 : skipWs r4 = '\x7d' :: rest) :
    parseObjItems (f + 1) s = some (.cons ⟨kcs⟩ v .nil, rest) := by
  simp only [parseObjItems_step, hs, h1, h2, h3, h4]

theorem parseObjItems_more (f : Nat) (s r r2 r4 rest5 rest6 : List Char)
    (r3 : List Char) (kcs : List Char) (v : Json) (kvs : JsonObj)
    (hs : skipWs s = '"' :: r)
    (h1 : parseStr r = some (kcs, r2))
    (h2 : skipWs r2 = ':' :: r3)
    (h3 : parseVal f r3 = some (v, r4))
    (h4 : skipWs r4 = ',' :: rest5)
    (h5 : parseObjItems f rest5 = some (kvs, rest6)) :
    parseObjItems (f + 1) s = some (.cons ⟨kcs⟩ v kvs, rest6) := by
  simp only [parseObjItems_step, hs, h1, h2, h3, h4, h5]

theorem prettyR_head (x : Json) (ind : Nat) :
    ∃ c cs, prettyR ind x = c :: cs ∧ isWsChar c = false
      ∧ c ≠ ']' ∧ c ≠ '\x7d' := by
  cases x with
  | null =>
      exact ⟨'n', ['u', 'l', 'l'], by simp [prettyR], by decide, by decide, by decide⟩
  | str s =>
      exact ⟨'"', escList s.data ++ ['"'], by simp [prettyR, printStr],
        by decide, by decide, by decide⟩
  | arr xs =>
      cases xs with
      | nil => exact ⟨'[', [']'], by simp [prettyR], by decide, by decide, by decide⟩
      | cons h t =>
          exact ⟨'[', '\n' :: (spaces (ind + 2) ++
            (prettyItems (ind + 2) h t ++ '\n' :: (spaces ind ++ [']']))),
            by simp [prettyR], by decide, by decide, by decide⟩
  | obj kvs =>
      cases kvs with
      | nil =>
          exact ⟨'\x7b', ['\x7d'], by simp [prettyR], by decide, by decide, by decide⟩
      | cons k v t =>
          exact ⟨'\x7b', '\n' :: (spaces (ind + 2) ++
            (prettyEntries (ind + 2) k v t ++ '\n' :: (spaces ind ++ ['\x7d']))),
            by simp [prettyR], by decide, by decide, by decide⟩

theorem prettyItems_head (h : Json) (t : JsonList) (ind : Nat) :
    ∃ c cs, prettyItems ind h t = c :: cs ∧ isWsChar c = false
      ∧ c ≠ ']' ∧ c ≠ '\x7d' := by
  obtain ⟨c, cs, hp, hw, h1, h2⟩ := prettyR_head h ind
  cases t with
  | nil => exact ⟨c, cs, by simp [prettyItems, hp], hw, h1, h2⟩
  | cons h2' t2 =>
      exact ⟨c, cs ++ ',' :: '\n' :: (spaces ind ++ prettyItems ind h2' t2),
        by simp [prettyItems, hp], hw, h1, h2⟩

theorem size_pos : ∀ x : Json, 1 ≤ x.size := by
  intro x
  cases x <;> simp [Json.size]

theorem sizeL_pos : ∀ t : JsonList, 1 ≤ t.sizeL := by
  intro t
  cases t <;> (simp [JsonList.sizeL]; try omega)

theorem sizeO_pos : ∀ t : JsonObj, 1 ≤ t.sizeO := by
  intro t
  cases t <;> (simp [JsonObj.sizeO]; try omega)

theorem prettyEntries_head (k : String) (v : Json) (t : JsonObj) (ind : Nat) :
    ∃ cs, prettyEntries ind k v t = '"' :: cs := by
  cases t with
  | nil =>
      exact ⟨(escList k.data ++ ['"']) ++ ':' :: ' ' :: prettyR ind v,
        by simp [prettyEntries, printStr]⟩
  | cons k2 v2 t2 =>
      exact ⟨(escList k.data ++ ['"']) ++ ':' :: ' ' :: prettyR ind v
          ++ ',' :: '\n' :: (spaces ind ++ prettyEntries ind k2 v2 t2),
        by simp [prettyEntries, printStr]⟩

/-- The printed form of any value parses back to exactly that value,
leaving exactly the trailing input (the central `json.loads ∘
json.dumps` lemma, fuel-indexed). -/
theorem parse_pretty_main :
    ∀ f : Nat,
      (∀ (x : Json) (ind : Nat) (rest : List Char), x.size ≤ f →
        parseVal f (prettyR ind x ++ rest) = some (x, rest))
      ∧ (∀ (h : Json) (t : JsonList) (ind ind2 : Nat) (rest : List Char),
          h.size + t.sizeL ≤ f →
          parseArrItems f
            (prettyItems ind h t ++ '\n' :: (spaces ind2 ++ ']' :: rest))
            = some (.cons h t, rest))
      ∧ (∀ (k : String) (v : Json) (t : JsonObj) (ind ind2 : Nat)
          (rest : List Char),
          1 + v.size + t.sizeO ≤ f →
          parseObjItems f
            (prettyEntries ind k v t ++ '\n' :: (spaces ind2 ++ '\x7d' :: rest))
            = some (.cons k v t, rest)) := by
  intro f
  induction f using Nat.strong_induction_on with
  | _ f ih =>
    refine ⟨?_, ?_, ?_⟩
    · intro x ind rest hsz
      cases f with
      | zero => exact absurd hsz (by have := size_pos x; omega)
      | succ f1 =>
          cases x with
          | null =>
              rw [show prettyR ind .null = ['n', 'u', 'l', 'l'] from by simp [prettyR]]
              exact parseVal_null_step f1 rest
          | str s =>
              have hp : prettyR ind (.str s) ++ rest
                  = '"' :: (escList s.data ++ '"' :: rest) := by
                simp [prettyR, printStr]
              rw [hp, parseVal_str_step, parseStr_escList]
          | arr xs =>
              cases xs with
              | nil =>
                  have hp : prettyR ind (.arr .nil) ++ rest = '[' :: ']' :: rest := by
                    simp [prettyR]
                  rw [hp]
                  exact parseVal_arrNil_step f1 (']' :: rest) rest
                    (skipWs_not_ws _ _ (by decide))
              | cons h t =>
                  have hp : prettyR ind (.arr (.cons h t)) ++ rest
                      = '[' :: '\n' :: (spaces (ind + 2) ++
                          (prettyItems (ind + 2) h t ++
                            '\n' :: (spaces ind ++ ']' :: rest))) := by
                    simp [prettyR]
                  obtain ⟨c, cs, hpi, hnws, hnr, hnb⟩ := prettyItems_head h t (ind + 2)
                  have hbody : prettyItems (ind + 2) h t ++
                      '\n' :: (spaces ind ++ ']' :: rest)
                      = c :: (cs ++ '\n' :: (spaces ind ++ ']' :: rest)) := by
                    rw [hpi]
                    rfl
                  have hskip : skipWs ('\n' :: (spaces (ind + 2) ++
                      (prettyItems (ind + 2) h t ++
                        '\n' :: (spaces ind ++ ']' :: rest))))
                      = c :: (cs ++ '\n' :: (spaces ind ++ ']' :: rest)) := by
                    rw [skipWs_ws _ _ (by decide), skipWs_spaces_append, hbody,
                      skipWs_not_ws _ _ hnws]
                  rw [hp, parseVal_arr_step f1 _ c _ hskip hnr, ← hbody,
                    (ih f1 (Nat.lt_succ_self f1)).2.1 h t (ind + 2) ind rest
                      (by have := size_pos h
                          have := sizeL_pos t
                          simp only [Json.size, JsonList.sizeL] at hsz
                          omega)]
          | obj kvs =>
              cases kvs with
              | nil =>
                  have hp : prettyR ind (.obj .nil) ++ rest
                      = '\x7b' :: '\x7d' :: rest := by
                    simp [prettyR]
                  rw [hp]
                  exact parseVal_objNil_step f1 ('\x7d' :: rest) rest
                    (skipWs_not_ws _ _ (by decide))
              | cons k v t =>
                  have hp : prettyR ind (.obj (.cons k v t)) ++ rest
                      = '\x7b' :: '\n' :: (spaces (ind + 2) ++
                          (prettyEntries (ind + 2) k v t ++
                            '\n' :: (spaces ind ++ '\x7d' :: rest))) := by
                    simp [prettyR]
                  obtain ⟨cs, hpe⟩ := prettyEntries_head k v t (ind + 2)
                  have hbody : prettyEntries (ind + 2) k v t ++
                      '\n' :: (spaces ind ++ '\x7d' :: rest)
                      = '"' :: (cs ++ '\n' :: (spaces ind ++ '\x7d' :: rest)) := by
                    rw [hpe]
                    rfl
                  have hskip : skipWs ('\n' :: (spaces (ind + 2) ++
                      (prettyEntries (ind + 2) k v t ++
                        '\n' :: (spaces ind ++ '\x7d' :: rest))))
                      = '"' :: (cs ++ '\n' :: (spaces ind ++ '\x7d' :: rest)) := by
                    rw [skipWs_ws _ _ (by decide), skipWs_spaces_append, hbody,
                      skipWs_not_ws _ _ (by decide)]
                  rw [hp, parseVal_obj_step f1 _ '"' _ hskip (by decide), ← hbody,
                    (ih f1 (Nat.lt_succ_self f1)).2.2 k v t (ind + 2) ind rest
                      (by have := size_pos v
                          have := sizeO_pos t
                          simp only [Json.size, JsonObj.sizeO] at hsz
                          omega)]
    · intro h t ind ind2 rest hsz
      cases f with
      | zero =>
          exact absurd hsz (by have := size_pos h; have := sizeL_pos t; omega)
      | succ f1 =>
          have ihA := (ih f1 (Nat.lt_succ_self f1)).1
          cases t with
          | nil =>
              have hp : prettyItems ind h .nil ++
                  '\n' :: (spaces ind2 ++ ']' :: rest)
                  = prettyR ind h ++ '\n' :: (spaces ind2 ++ ']' :: rest) := by
                simp [prettyItems]
              rw [hp]
              exact parseArrItems_last f1 _ _ rest h
                (ihA h ind _ (by simp only [JsonList.sizeL] at hsz; omega))
                (by rw [skipWs_ws _ _ (by decide), skipWs_spaces_append,
                      skipWs_not_ws _ _ (by decide)])
          | cons h2 t2 =>
              have hp : prettyItems ind h (.cons h2 t2) ++
                  '\n' :: (spaces ind2 ++ ']' :: rest)
                  = prettyR ind h ++ ',' :: '\n' :: (spaces ind ++
                      (prettyItems ind h2 t2 ++
                        '\n' :: (spaces ind2 ++ ']' :: rest))) := by
                simp [prettyItems]
              rw [hp]
              have hb2 : h2.size + t2.sizeL ≤ f1 := by
                have := size_pos h
                simp only [JsonList.sizeL] at hsz
                omega
              have h3 : parseArrItems f1 ('\n' :: (spaces ind ++
                  (prettyItems ind h2 t2 ++ '\n' :: (spaces ind2 ++ ']' :: rest))))
                  = some (.cons h2 t2, rest) := by
                rw [parseArrItems_congr f1 _
                  (prettyItems ind h2 t2 ++ '\n' :: (spaces ind2 ++ ']' :: rest))
                  (by rw [skipWs_ws _ _ (by decide), skipWs_spaces_append])]
                exact (ih f1 (Nat.lt_succ_self f1)).2.1 h2 t2 ind ind2 rest hb2
              exact parseArrItems_more f1 _ _ _ rest h (.cons h2 t2)
                (ihA h ind _
                  (by have := size_pos h2
                      have := sizeL_pos t2
                      simp only [JsonList.sizeL] at hsz
                      omega))
                (skipWs_not_ws _ _ (by decide)) h3
    · intro k v t ind ind2 rest hsz
      cases f with
      | zero =>
          exact absurd hsz (by have := size_pos v; have := sizeO_pos t; omega)
      | succ f1 =>
          have ihA := (ih f1 (Nat.lt_succ_self f1)).1
          cases t with
          | nil =>
              have hp : prettyEntries ind k v .nil ++
                  '\n' :: (spaces ind2 ++ '\x7d' :: rest)
                  = '"' :: (escList k.data ++ '"' :: ':' :: ' ' ::
                      (prettyR ind v ++ '\n' :: (spaces ind2 ++ '\x7d' :: rest))) := by
                simp [prettyEntries, printStr]
              rw [hp]
              exact parseObjItems_last f1 _ _ _ _ rest
                (' ' :: (prettyR ind v ++ '\n' :: (spaces ind2 ++ '\x7d' :: rest)))
                k.data v
                (skipWs_not_ws _ _ (by decide))
                (parseStr_escList k.data _)
                (skipWs_not_ws _ _ (by decide))
                ((parseVal_congr f1 _ _ (skipWs_ws _ _ (by decide))).trans
                  (ihA v ind _ (by simp only [JsonObj.sizeO] at hsz; omega)))
                (by rw [skipWs_ws _ _ (by decide), skipWs_spaces_append,
                      skipWs_not_ws _ _ (by decide)])
          | cons k2 v2 t2 =>
              have hp : prettyEntries ind k v (.cons k2 v2 t2) ++
                  '\n' :: (spaces ind2 ++ '\x7d' :: rest)
                  = '"' :: (escList k.data ++ '"' :: ':' :: ' ' ::
                      (prettyR ind v ++ ',' :: '\n' :: (spaces ind ++
                        (prettyEntries ind k2 v2 t2 ++
                          '\n' :: (spaces ind2 ++ '\x7d' :: rest))))) := by
                simp [prettyEntries, printStr]
              rw [hp]
              have hb2 : 1 + v2.size + t2.sizeO ≤ f1 := by
                have := size_pos v
                simp only [JsonObj.sizeO] at hsz
                omega
              have h5 : parseObjItems f1 ('\n' :: (spaces ind ++
                  (prettyEntries ind k2 v2 t2 ++
                    '\n' :: (spaces ind2 ++ '\x7d' :: rest))))
                  = some (.cons k2 v2 t2, rest) := by
                rw [parseObjItems_congr f1 _
                  (prettyEntries ind k2 v2 t2 ++
                    '\n' :: (spaces ind2 ++ '\x7d' :: rest))
                  (by rw [skipWs_ws _ _ (by decide), skipWs_spaces_append])]
                exact (ih f1 (Nat.lt_succ_self f1)).2.2 k2 v2 t2 ind ind2 rest hb2
              exact parseObjItems_more f1 _ _ _ _ _ rest
                (' ' :: (prettyR ind v ++ ',' :: '\n' :: (spaces ind ++
                  (prettyEntries ind k2 v2 t2 ++
                    '\n' :: (spaces ind2 ++ '\x7d' :: rest)))))
                k.data v (.cons k2 v2 t2)
                (skipWs_not_ws _ _ (by decide))
                (parseStr_escList k.data _)
                (skipWs_not_ws _ _ (by decide))
                ((parseVal_congr f1 _ _ (skipWs_ws _ _ (by decide))).trans
                  (ihA v ind _
                    (by have := size_pos v2
                        have := sizeO_pos t2
                        simp only [JsonObj.sizeO] at hsz
                        omega)))
                (skipWs_not_ws _ _ (by decide)) h5

theorem parseJson_prettyR (y : Json) : parseJson (prettyR 0 y) = some y := by
  unfold parseJson
  have hlen : y.size ≤ (prettyR 0 y).length + 1 :=
    le_trans (lenA y 0) (Nat.le_succ _)
  have h := (parse_pretty_main ((prettyR 0 y).length + 1)).1 y 0 [] hlen
  rw [List.append_nil] at h
  rw [h]
  simp [skipWs]

/-! ### Key order: both serializations carry the same mapping -/

def olen : JsonObj → Nat
  | .nil => 0
  | .cons _ _ t => olen t + 1

def olookup (k : String) : JsonObj → Option Json
  | .nil => none
  | .cons k2 v t => if k = k2 then some v else olookup k t

def okeyMem (k : String) : JsonObj → Bool
  | .nil => false
  | .cons k2 _ t => k = k2 || okeyMem k t

def okeysNodup : JsonObj → Bool
  | .nil => true
  | .cons k _ t => !okeyMem k t && okeysNodup t

mutual

/-- Duplicate-free keys at every object node, recursively (a Python
`dict` can never carry duplicate keys). -/
def ndup : Json → Bool
  | .null => true
  | .str _ => true
  | .arr xs => ndupL xs
  | .obj kvs => okeysNodup kvs && ndupO kvs

def ndupL : JsonList → Bool
  | .nil => true
  | .cons h t => ndup h && ndupL t

def ndupO : JsonObj → Bool
  | .nil => true
  | .cons _ v t => ndup v && ndupO t

end

mutual

/-- "All keys and values match, regardless of key order": equal scalars
and arrays pointwise; for objects, equal entry counts and every entry
of the first found in the second with an equivalent value. -/
def jeq : Json → Json → Bool
  | .null, .null => true
  | .str a, .str b => a == b
  | .arr a, .arr b => jeqL a b
  | .obj a, .obj b => (olen a == olen b) && jeqEntries a b
  | _, _ => false

def jeqL : JsonList → JsonList → Bool
  | .nil, .nil => true
  | .cons h t, .cons h2 t2 => jeq h h2 && jeqL t t2
  | _, _ => false

def jeqEntries : JsonObj → JsonObj → Bool
  | .nil, _ => true
  | .cons k v t, b =>
      (match olookup k b with
       | some w => jeq v w
       | none => false) && jeqEntries t b

end

/-- Structural induction for the object spine alone (the default
recursor of the mutual family has several motives). -/
@[induction_eliminator]
theorem JsonObj.inductionOn {motive : JsonObj → Prop}
    (nil : motive .nil)
    (cons : ∀ (k : String) (v : Json) (tl : JsonObj),
      motive tl → motive (.cons k v tl)) :
    ∀ t : JsonObj, motive t
  | .nil => nil
  | .cons k v tl => cons k v tl (JsonObj.inductionOn nil cons tl)

theorem olen_insObj (k : String) (v : Json) (t : JsonObj) :
    olen (insObj k v t) = olen t + 1 := by
  induction t with
  | nil => rfl
  | cons k2 v2 t2 ih =>
      unfold insObj
      split
      · rfl
      · simp [olen, ih]

theorem olen_sortObj (t : JsonObj) : olen (sortObj t) = olen t := by
  induction t with
  | nil => rfl
  | cons k v t2 ih => simp [sortObj, olen_insObj, olen, ih]

theorem okeyMem_insObj (k' k : String) (v : Json) (t : JsonObj) :
    okeyMem k' (insObj k v t) = (decide (k' = k) || okeyMem k' t) := by
  induction t with
  | nil => simp [insObj, okeyMem]
  | cons k2 v2 t2 ih =>
      unfold insObj
      split
      · simp [okeyMem]
      · simp [okeyMem, ih]
        by_cases h1 : k' = k <;> by_cases h2 : k' = k2 <;> simp [h1, h2] <;> tauto

theorem okeyMem_sortObj (k : String) (t : JsonObj) :
    okeyMem k (sortObj t) = okeyMem k t := by
  induction t with
  | nil => rfl
  | cons k2 v2 t2 ih => simp [sortObj, okeyMem_insObj, okeyMem, ih]

theorem olookup_insObj (k' k : String) (v : Json) (t : JsonObj)
    (hk : okeyMem k t = false) :
    olookup k' (insObj k v t) = if k' = k then some v else olookup k' t := by
  induction t with
  | nil => simp [insObj, olookup]
  | cons k2 v2 t2 ih =>
      have hk1 : (k = k2) = False := by
        simp [okeyMem] at hk
        simp [hk.1]
      have hk2 : okeyMem k t2 = false := by
        simp [okeyMem] at hk
        exact hk.2
      unfold insObj
      split
      · simp [olookup]
      · by_cases h2 : k' = k2
        · subst h2
          have : ¬k' = k := by
            intro he
            rw [he] at hk1
            simp at hk1
          simp [olookup, this]
        · simp [olookup, h2, ih hk2]

theorem olookup_sortObj (k : String) (t : JsonObj)
    (hnd : okeysNodup t = true) : olookup k (sortObj t) = olookup k t := by
  induction t with
  | nil => rfl
  | cons k0 v0 t0 ih =>
      simp only [okeysNodup, Bool.and_eq_true, Bool.not_eq_true'] at hnd
      unfold sortObj
      rw [olookup_insObj _ _ _ _ (by rw [okeyMem_sortObj]; exact hnd.1)]
      rw [ih hnd.2]
      simp [olookup]

theorem olookup_sortDeepO (k : String) (t : JsonObj) :
    olookup k (sortDeepO t) = (olookup k t).map sortDeep := by
  induction t with
  | nil => rfl
  | cons k2 v2 t2 ih =>
      unfold sortDeepO
      by_cases h : k = k2
      · simp [olookup, h]
      · simp [olookup, h, ih]

theorem okeyMem_sortDeepO (k : String) (t : JsonObj) :
    okeyMem k (sortDeepO t) = okeyMem k t := by
  induction t with
  | nil => rfl
  | cons k2 v2 t2 ih => simp [sortDeepO, okeyMem, ih]

theorem okeysNodup_sortDeepO (t : JsonObj) :
    okeysNodup (sortDeepO t) = okeysNodup t := by
  induction t with
  | nil => rfl
  | cons k2 v2 t2 ih => simp [sortDeepO, okeysNodup, okeyMem_sortDeepO, ih]

theorem olen_sortDeepO (t : JsonObj) : olen (sortDeepO t) = olen t := by
  induction t with
  | nil => rfl
  | cons k2 v2 t2 ih => simp [sortDeepO, olen, ih]

theorem okeyMem_of_olookup (k : String) (t : JsonObj) (v : Json)
    (h : olookup k t = some v) : okeyMem k t = true := by
  induction t with
  | nil => simp [olookup] at h
  | cons k2 v2 t2 ih =>
      unfold olookup at h
      by_cases hk : k = k2
      · simp [okeyMem, hk]
      · rw [if_neg hk] at h
        simp [okeyMem, ih h]

theorem olookup_size_le (k : String) (t : JsonObj) (v : Json)
    (h : olookup k t = some v) : v.size ≤ t.sizeO := by
  induction t with
  | nil => simp [olookup] at h
  | cons k2 v2 t2 ih =>
      unfold olookup at h
      by_cases hk : k = k2
      · rw [if_pos hk] at h
        injection h with h'
        subst h'
        simp [JsonObj.sizeO]
        omega
      · rw [if_neg hk] at h
        have := ih h
        simp [JsonObj.sizeO]
        omega

theorem ndupO_olookup (k : String) (t : JsonObj) (v : Json)
    (hnd : ndupO t = true) (h : olookup k t = some v) : ndup v = true := by
  induction t with
  | nil => simp [olookup] at h
  | cons k2 v2 t2 ih =>
      simp only [ndupO, Bool.and_eq_true] at hnd
      unfold olookup at h
      by_cases hk : k = k2
      · rw [if_pos hk] at h
        injection h with h'
        subst h'
        exact hnd.1
      · rw [if_neg hk] at h
        exact ih hnd.2 h

theorem jeqEntries_of_lookup :
    ∀ (kvs B : JsonObj),
      okeysNodup kvs = true →
      (∀ k v, olookup k kvs = some v → olookup k B = some (sortDeep v)) →
      (∀ k v, olookup k kvs = some v → jeq v (sortDeep v) = true) →
      jeqEntries kvs B = true := by
  intro kvs
  induction kvs with
  | nil => intro B _ _ _; rfl
  | cons k v t ih =>
      intro B hnd hlook hjeq
      simp only [okeysNodup, Bool.and_eq_true, Bool.not_eq_true'] at hnd
      have hself : olookup k (.cons k v t) = some v := by simp [olookup]
      unfold jeqEntries
      rw [hlook k v hself]
      rw [Bool.and_eq_true]
      refine ⟨hjeq k v hself, ?_⟩
      refine ih B hnd.2 ?_ ?_
      · intro k' v' h'
        refine hlook k' v' ?_
        have hne : ¬k' = k := by
          intro he
          subst he
          rw [okeyMem_of_olookup k' t v' h'] at hnd
          exact absurd hnd.1 (by simp)
        simp [olookup, hne, h']
      · intro k' v' h'
        refine hjeq k' v' ?_
        have hne : ¬k' = k := by
          intro he
          subst he
          rw [okeyMem_of_olookup k' t v' h'] at hnd
          exact absurd hnd.1 (by simp)
        simp [olookup, hne, h']

theorem jeq_sortDeep_main :
    ∀ n : Nat,
      (∀ x : Json, x.size ≤ n → ndup x = true → jeq x (sortDeep x) = true)
      ∧ (∀ xs : JsonList, xs.sizeL ≤ n → ndupL xs = true →
          jeqL xs (sortDeepL xs) = true) := by
  intro n
  induction n using Nat.strong_induction_on with
  | _ n ih =>
    constructor
    · intro x hsz hnd
      cases x with
      | null => simp [sortDeep, jeq]
      | str s => simp [sortDeep, jeq]
      | arr xs =>
          have hn1 : 1 ≤ n := le_trans (size_pos _) hsz
          simp only [sortDeep, jeq]
          exact (ih (n - 1) (by omega)).2 xs
            (by simp only [Json.size] at hsz; omega)
            (by simpa [ndup] using hnd)
      | obj kvs =>
          have hn1 : 1 ≤ n := le_trans (size_pos _) hsz
          simp only [ndup, Bool.and_eq_true] at hnd
          simp only [sortDeep, jeq, Bool.and_eq_true]
          constructor
          · rw [olen_sortObj, olen_sortDeepO]
            simp
          · refine jeqEntries_of_lookup kvs _ hnd.1 ?_ ?_
            · intro k v hk
              rw [olookup_sortObj _ _ (by rw [okeysNodup_sortDeepO]; exact hnd.1),
                olookup_sortDeepO, hk]
              rfl
            · intro k v hk
              refine (ih (n - 1) (by omega)).1 v ?_ (ndupO_olookup k kvs v hnd.2 hk)
              have := olookup_size_le k kvs v hk
              simp only [Json.size] at hsz
              omega
    · intro xs hsz hnd
      cases xs with
      | nil => simp [sortDeepL, jeqL]
      | cons h t =>
          have hn1 : 1 ≤ n := le_trans (sizeL_pos _) hsz
          simp only [ndupL, Bool.and_eq_true] at hnd
          simp only [sortDeepL, jeqL, Bool.and_eq_true]
          constructor
          · exact (ih (n - 1) (by omega)).1 h
              (by simp only [JsonList.sizeL] at hsz; have := sizeL_pos t; omega)
              hnd.1
          · exact (ih (n - 1) (by omega)).2 t
              (by simp only [JsonList.sizeL] at hsz; have := size_pos h; omega)
              hnd.2

/-- **C8.** Writing any snapshot with `write_to_cache` and reading it
back with `inventory_from_cache` followed by JSON parsing reproduces
the snapshot: the parse yields the key-sorted form, which carries
exactly the same keys and values as the original (key order aside). -/
theorem cache_roundtrip :
    ∀ x : Json, ndup x = true →
      parseJson (inventory_from_cache (write_to_cache x)) = some (sortDeep x)
      ∧ jeq x (sortDeep x) = true := by
  intro x hnd
  constructor
  · show parseJson (json_format_dict x true) = some (sortDeep x)
    unfold json_format_dict
    rw [if_pos rfl]
    exact parseJson_prettyR (sortDeep x)
  · exact (jeq_sortDeep_main x.size).1 x le_rfl hnd

/-- Witness for `cache_roundtrip` on a two-key object written in
unsorted key order. -/
theorem cache_roundtrip_witness :
    ndup (.obj (.cons "b" .null (.cons "a" (.str "v") .nil))) = true
    ∧ parseJson (inventory_from_cache (write_to_cache
        (.obj (.cons "b" .null (.cons "a" (.str "v") .nil)))))
      = some (sortDeep (.obj (.cons "b" .null (.cons "a" (.str "v") .nil))))
    ∧ jeq (.obj (.cons "b" .null (.cons "a" (.str "v") .nil)))
        (sortDeep (.obj (.cons "b" .null (.cons "a" (.str "v") .nil)))) = true :=
  ⟨by decide,
   (cache_roundtrip (.obj (.cons "b" .null (.cons "a" (.str "v") .nil)))
     (by decide)).1,
   (cache_roundtrip (.obj (.cons "b" .null (.cons "a" (.str "v") .nil)))
     (by decide)).2⟩

/-! ## Host mode (`host_information`, C5) -/

/-- A hostvars dict as the JSON value `json.dumps` receives. -/
def hvEntries : HostVars → JsonObj
  | [] => .nil
  | (k, none) :: t => .cons k .null (hvEntries t)
  | (k, some s) :: t => .cons k (.str s) (hvEntries t)

def hostVarsToJson (hv : HostVars) : Json := .obj (hvEntries hv)

/-- `host_information`: load the cache into `self.inventory`; if the
host is not a key of `_meta.hostvars`, run one `call_update_cache` and
retry on the updated inventory; a still-missing host yields the pretty
printing of `{}`.  `.error` is a propagated exception (unreadable
cache, `KeyError`, or a failing refresh); the `Nat` counts refreshes. -/
def host_information (env : Env) (st : CState) (host : String) :
    Except Unit (List Char × Nat) :=
  match st.cache with
  | none => .error ()
  | some cinv =>
      match alookup (some "_meta") cinv with
      | some (.meta m) =>
          match alookup (some host) m with
          | some hv => .ok (json_format_dict (hostVarsToJson hv) true, 0)
          | none =>
              match call_update_cache env { st with inv := cinv } with
              | ⟨true, st2, _⟩ =>
                  match alookup (some "_meta") st2.inv with
                  | some (.meta m2) =>
                      match alookup (some host) m2 with
                      | some hv => .ok (json_format_dict (hostVarsToJson hv) true, 1)
                      | none => .ok (json_format_dict (.obj .nil) true, 1)
                  | _ => .error ()
              | ⟨false, _, _⟩ => .error ()
      | _ => .error ()

/-- **C5.** In host mode with a warm cache, a host missing from the
cached `_meta.hostvars` triggers exactly one refresh; if it is still
absent afterwards the result is the JSON text of the empty object
`\x7b\x7d` — a successful result, not an error. -/
theorem host_information_miss :
    ∀ (env : Env) (st : CState) (host : String) (cinv : Inventory)
      (m m2 : List (Option String × HostVars)) (st2 : CState)
      (lg : List Request),
      st.cache = some cinv →
      alookup (some "_meta") cinv = some (.meta m) →
      alookup (some host) m = none →
      call_update_cache env { st with inv := cinv } = ⟨true, st2, lg⟩ →
      alookup (some "_meta") st2.inv = some (.meta m2) →
      alookup (some host) m2 = none →
      host_information env st host = .ok (json_format_dict (.obj .nil) true, 1)
      ∧ json_format_dict (.obj .nil) true = ['\x7b', '\x7d'] := by
  intro env st host cinv m m2 st2 lg hc hm hh hr hm2 hh2
  obtain ⟨bu, hd, iv, ch⟩ := st
  have hc' : ch = some cinv := hc
  subst hc'
  refine ⟨?_, by simp [json_format_dict, sortDeep, sortDeepO, sortObj, prettyR]⟩
  simp only [host_information, hm, hh, hr, hm2, hh2]

/-- A remote API with no vApps at all: the refresh succeeds and leaves
the hostvars empty. -/
def missEnv : Env :=
  ⟨some "t",
   fun url _ =>
     if url = "http://e/vApps/query" then some (.elem "Q" [] none .nil)
     else none⟩

def missState : CState := ⟨"http://e", [], empty_inventory, some empty_inventory⟩

/-- Witness for `host_information_miss`: `--host missing-host` against
a warm empty cache returns `\x7b\x7d` after its single refresh. -/
theorem host_information_miss_witness :
    host_information missEnv missState "missing-host"
      = .ok (json_format_dict (.obj .nil) true, 1)
    ∧ json_format_dict (.obj .nil) true = ['\x7b', '\x7d'] :=
  host_information_miss missEnv missState "missing-host" empty_inventory [] []
    (call_update_cache missEnv { missState with inv := empty_inventory }).state
    (call_update_cache missEnv { missState with inv := empty_inventory }).log
    rfl rfl rfl rfl rfl rfl

/-! ## The `vcd_vapp_network` module (`VappNetwork`)

`get_network` scans `self.vapp.get_all_networks()` (here
`NetEnv.networks`) for the ovf-namespaced `name` attribute.
`add_network` / `delete_network` keep the source's control flow; the
XML payload assembly (`E.Configuration`, `E.IpScope`, ...) feeds only
into the update task and is not inspected by any claim, so the model
records the decisions around it: `NetEnv.ipParse` is
`ipaddress.ip_network` (`none` = `ValueError`), `NetEnv.taskOk` covers
`put_linked_resource` + `execute_task`, and the `Nat` in each result
counts update tasks executed. -/

def ovfNameKey : String := "\x7bhttp://schemas.dmtf.org/ovf/envelope/1\x7dname"

structure NetParams where
  network : String
  vapp : String
  vdc : String
  fence_mode : String
  parent_network : Option String
  ip_scope : Option String
  ip_range_start : Option String
  ip_range_end : Option String
  nat_state : String
  fw_state : String
  dns1 : String
  dns2 : String
  dns_suffix : String
  state : String
  deriving DecidableEq

/-- Python truthiness of an optional string parameter (`None` and `''`
are falsy). -/
def truthy : Option String → Bool
  | none => false
  | some s => !s.isEmpty

structure NetEnv where
  networks : List Xml
  orgvdcNetworks : List Xml
  ipParse : String → Option (String × String)
  taskOk : Bool

inductive NetErr : Type where
  | entityNotFound (msg : String)
  | vappNetworkCreateError (msg : String)
  | taskError
  | ipValueError
  deriving DecidableEq

structure NetResponse where
  changed : Bool
  msg : Option String
  warnings : Option String
  deriving DecidableEq

/-- `get_network`: first network whose ovf `name` attribute equals the
requested name; `none` is the raised `EntityNotFoundException`. -/
def get_network (networks : List Xml) (name : String) : Option Xml :=
  networks.find? (fun n => n.get ovfNameKey = some name)

/-- The `put_linked_resource` + `execute_task` tail of both mutating
paths. -/
def runUpdateTask (env : NetEnv) (okMsg : String) :
    Except NetErr NetResponse × Nat :=
  if env.taskOk then (.ok ⟨true, some okMsg, none⟩, 1)
  else (.error .taskError, 1)

/-- `delete_network`. -/
def delete_network (env : NetEnv) (p : NetParams) :
    Except NetErr NetResponse × Nat :=
  match get_network env.networks p.network with
  | none =>
      (.ok ⟨false, none,
        some ("Vapp Network " ++ p.network ++ " is not present.")⟩, 0)
  | some _ =>
      runUpdateTask env ("Vapp Network " ++ p.network ++ " has been deleted.")

/-- `add_network`.  The parent-network lookup failure message keeps the
source's literal `'%s'` (the code calls `.format` on a `%s` template,
so nothing is substituted). -/
def add_network (env : NetEnv) (p : NetParams) :
    Except NetErr NetResponse × Nat :=
  match get_network env.networks p.network with
  | some _ =>
      (.ok ⟨false, none,
        some ("Vapp Network " ++ p.network ++ " is already present.")⟩, 0)
  | none =>
      if truthy p.parent_network then
        match env.orgvdcNetworks.find?
            (fun n => n.get "name" = some (p.parent_network.getD "")) with
        | some _ =>
            if truthy p.ip_scope then
              match env.ipParse (p.ip_scope.getD "") with
              | none => (.error .ipValueError, 0)
              | some _ =>
                  runUpdateTask env
                    ("Vapp Network " ++ p.network ++ " has been added")
            else
              runUpdateTask env ("Vapp Network " ++ p.network ++ " has been added")
        | none =>
            (.error (.entityNotFound "Parent network '%s' does not exist"), 0)
      else if truthy p.ip_scope then
        match env.ipParse (p.ip_scope.getD "") with
        | none => (.error .ipValueError, 0)
        | some _ =>
            runUpdateTask env ("Vapp Network " ++ p.network ++ " has been added")
      else
        (.error (.vappNetworkCreateError
          "Either parent_network or ip_scope must be set"), 0)

/-- `manage_states` (falls through to Python `None` for any other
state, though the argument spec restricts it to present/absent). -/
def manage_states (env : NetEnv) (p : NetParams) :
    Option (Except NetErr NetResponse × Nat) :=
  if p.state = "present" then some (add_network env p)
  else if p.state = "absent" then some (delete_network env p)
  else none

/-- **C9.** The module performs no modification when the requested
state already holds: `state=present` with an existing network returns
`changed=False` with a warning and runs no update task, and
`state=absent` with a missing network (an `EntityNotFoundException`
from `get_network`) likewise. -/
theorem vapp_network_idempotent :
    ∀ (env : NetEnv) (p : NetParams),
      ((get_network env.networks p.network).isSome = true →
        add_network env p =
          (.ok ⟨false, none,
            some ("Vapp Network " ++ p.network ++ " is already present.")⟩, 0)
        ∧ (p.state = "present" → manage_states env p = some (add_network env p)))
      ∧ (get_network env.networks p.network = none →
        delete_network env p =
          (.ok ⟨false, none,
            some ("Vapp Network " ++ p.network ++ " is not present.")⟩, 0)
        ∧ (p.state = "absent" → manage_states env p = some (delete_network env p))) := by
  intro env p
  constructor
  · intro h
    cases hg : get_network env.networks p.network with
    | none => rw [hg] at h; simp at h
    | some n =>
        refine ⟨by simp [add_network, hg], ?_⟩
        intro hs
        simp [manage_states, hs]
  · intro h
    refine ⟨by simp [delete_network, h], ?_⟩
    intro hs
    by_cases hp : p.state = "present"
    · rw [hp] at hs; simp at hs
    · simp [manage_states, hs, hp]

/-- A vApp with one existing network `net1`. -/
def netEnvWith : NetEnv :=
  ⟨[.elem "Network" [(ovfNameKey, "net1")] none .nil], [], fun _ => none, true⟩

/-- A vApp with no networks. -/
def netEnvEmpty : NetEnv := ⟨[], [], fun _ => none, true⟩

def netParams (st : String) : NetParams :=
  ⟨"net1", "vapp1", "vdc1", "bridged", none, none, none, none,
   "enabled", "enabled", "", "", "", st⟩

/-- Witness for `vapp_network_idempotent`: both no-op paths on
concrete inputs. -/
theorem vapp_network_idempotent_witness :
    add_network netEnvWith (netParams "present") =
      (.ok ⟨false, none,
        some ("Vapp Network " ++ (netParams "present").network
          ++ " is already present.")⟩, 0)
    ∧ manage_states netEnvWith (netParams "present")
        = some (add_network netEnvWith (netParams "present"))
    ∧ delete_network netEnvEmpty (netParams "absent") =
        (.ok ⟨false, none,
          some ("Vapp Network " ++ (netParams "absent").network
            ++ " is not present.")⟩, 0)
    ∧ manage_states netEnvEmpty (netParams "absent")
        = some (delete_network netEnvEmpty (netParams "absent")) :=
  ⟨((vapp_network_idempotent netEnvWith (netParams "present")).1 (by decide)).1,
   ((vapp_network_idempotent netEnvWith (netParams "present")).1 (by decide)).2 rfl,
   ((vapp_network_idempotent netEnvEmpty (netParams "absent")).2 (by decide)).1,
   ((vapp_network_idempotent netEnvEmpty (netParams "absent")).2 (by decide)).2 rfl⟩

/-- **C10.** `state=present` with a new network name and neither
`parent_network` nor `ip_scope` raises `VappNetworkCreateError` before
building any configuration: no update task runs, and the module fails
with `changed` still false. -/
theorem add_network_requires_scope :
    ∀ (env : NetEnv) (p : NetParams),
      get_network env.networks p.network = none →
      truthy p.parent_network = false →
      truthy p.ip_scope = false →
      add_network env p =
        (.error (.vappNetworkCreateError
          "Either parent_network or ip_scope must be set"), 0) := by
  intro env p h1 h2 h3
  simp [add_network, h1, h2, h3]

/-- Witness for `add_network_requires_scope`. -/
theorem add_network_requires_scope_witness :
    add_network netEnvEmpty (netParams "present") =
      (.error (.vappNetworkCreateError
        "Either parent_network or ip_scope must be set"), 0) :=
  add_network_requires_scope netEnvEmpty (netParams "present")
    (by decide) (by decide) (by decide)
